import Mathlib

/-! Verification development for the `fielder` Go library (go-fielder).

The library is shallowly embedded: each Go type becomes a Lean structure or
inductive, each method a Lean function on it.  Machine integers are modelled
as `Int`/`Nat` with the explicit bounds Go's `strconv` enforces;
`time.Time` values are modelled by their broken-down UTC components (the
only location this package ever produces); `decimal.Decimal` is modelled by
its (integer coefficient, exponent) pair exactly as in shopspring/decimal.
Fallible operations return `Option`/`Except`. -/

namespace Fielder

/-! ## Decimal digit strings (strconv / big.Int formatting and parsing) -/

/-- The character for the decimal digit `d` (meaningful for `d < 10`). -/
def digitChar (d : Nat) : Char := Char.ofNat (48 + d)

/-- Numeric value of a decimal digit character, `none` for non-digits. -/
def digitVal? (c : Char) : Option Nat :=
  if '0' ≤ c ∧ c ≤ '9' then some (c.toNat - 48) else none

/-- Little-endian base-10 digits of `n`, with explicit fuel so that the
recursion is structural (the fuel is an upper bound on `n`). -/
def natDigitsLE : Nat → Nat → List Nat
  | 0, _ => []
  | f + 1, n => if n = 0 then [] else n % 10 :: natDigitsLE f (n / 10)

/-- Digit values of `n`, most significant first; `0` is rendered as `[0]`.
This is the digit sequence Go's `strconv`/`big.Int` decimal printing emits. -/
def natVals (n : Nat) : List Nat :=
  if n = 0 then [0] else ((natDigitsLE n n).reverse)

/-- Decimal character string of a natural number, as printed by Go. -/
def natToChars (n : Nat) : List Char := (natVals n).map digitChar

/-- Decimal character string of an integer (Go `strconv.Itoa` / `big.Int.String`). -/
def intToChars (i : Int) : List Char :=
  if i < 0 then '-' :: natToChars i.natAbs else natToChars i.natAbs

/-- Parse a character list of decimal digits into their values; any
non-digit character fails the whole parse. -/
def parseDigitVals : List Char → Option (List Nat)
  | [] => some []
  | c :: cs =>
    match digitVal? c, parseDigitVals cs with
    | some d, some ds => some (d :: ds)
    | _, _ => none

/-- Numeric value of a most-significant-first digit value list. -/
def foldDigits (ds : List Nat) : Nat := ds.foldl (fun a d => a * 10 + d) 0

theorem natDigitsLE_eq_digits : ∀ f n, n ≤ f → natDigitsLE f n = Nat.digits 10 n := by
  intro f
  induction f with
  | zero =>
    intro n hn
    interval_cases n
    simp [natDigitsLE]
  | succ f ih =>
    intro n hn
    by_cases h0 : n = 0
    · simp [natDigitsLE, h0]
    · have hdiv : n / 10 ≤ f := by
        have : n / 10 < n := Nat.div_lt_self (Nat.pos_of_ne_zero h0) (by norm_num)
        omega
      rw [natDigitsLE, if_neg h0, ih _ hdiv,
        Nat.digits_def' (by norm_num : 1 < 10) (Nat.pos_of_ne_zero h0)]

theorem natVals_lt_ten {n : Nat} : ∀ d ∈ natVals n, d < 10 := by
  intro d hd
  unfold natVals at hd
  by_cases h0 : n = 0
  · simp [h0] at hd; omega
  · rw [if_neg h0, natDigitsLE_eq_digits n n le_rfl, List.mem_reverse] at hd
    exact Nat.digits_lt_base (by norm_num) hd

theorem digitVal?_digitChar {d : Nat} (h : d < 10) : digitVal? (digitChar d) = some d := by
  interval_cases d <;> decide

theorem foldl_digits_general : ∀ (ds : List Nat) (a : Nat),
    ds.foldl (fun a d => a * 10 + d) a = a * 10 ^ ds.length + foldDigits ds := by
  intro ds
  induction ds with
  | nil => intro a; simp [foldDigits]
  | cons d tl ih =>
    intro a
    have h1 : foldDigits (d :: tl) = d * 10 ^ tl.length + foldDigits tl := by
      unfold foldDigits
      rw [List.foldl_cons]
      have := ih (0 * 10 + d)
      simpa [foldDigits] using this
    rw [List.foldl_cons, ih (a * 10 + d), h1, List.length_cons]
    ring

theorem foldDigits_cons (d : Nat) (tl : List Nat) :
    foldDigits (d :: tl) = d * 10 ^ tl.length + foldDigits tl := by
  unfold foldDigits
  rw [List.foldl_cons]
  have := foldl_digits_general tl (0 * 10 + d)
  simpa [foldDigits] using this

theorem foldDigits_append (xs ys : List Nat) :
    foldDigits (xs ++ ys) = foldDigits xs * 10 ^ ys.length + foldDigits ys := by
  unfold foldDigits
  rw [List.foldl_append]
  exact foldl_digits_general ys _

theorem foldDigits_reverse (ds : List Nat) :
    foldDigits ds.reverse = Nat.ofDigits 10 ds := by
  induction ds with
  | nil => simp [foldDigits]
  | cons d ds ih =>
    rw [List.reverse_cons, foldDigits_append, ih, Nat.ofDigits_cons]
    simp [foldDigits]
    ring

theorem foldDigits_natVals (n : Nat) : foldDigits (natVals n) = n := by
  unfold natVals
  by_cases h0 : n = 0
  · simp [h0, foldDigits]
  · rw [if_neg h0, natDigitsLE_eq_digits n n le_rfl, foldDigits_reverse,
      Nat.ofDigits_digits]

theorem foldDigits_replicate_zero (k : Nat) : foldDigits (List.replicate k 0) = 0 := by
  induction k with
  | zero => simp [foldDigits]
  | succ k ih =>
    rw [List.replicate_succ]
    unfold foldDigits at ih ⊢
    simpa using ih

theorem foldDigits_zero_pad (k : Nat) (vs : List Nat) :
    foldDigits (List.replicate k 0 ++ vs) = foldDigits vs := by
  rw [foldDigits_append, foldDigits_replicate_zero]
  simp

theorem parseDigitVals_map_digitChar (l : List Nat) (h : ∀ d ∈ l, d < 10) :
    parseDigitVals (l.map digitChar) = some l := by
  induction l with
  | nil => rfl
  | cons d ds ih =>
    rw [List.map_cons, parseDigitVals, digitVal?_digitChar (h d (by simp)),
      ih (fun x hx => h x (by simp [hx]))]

theorem parseDigitVals_append {xs ys : List Char} {ds es : List Nat}
    (hx : parseDigitVals xs = some ds) (hy : parseDigitVals ys = some es) :
    parseDigitVals (xs ++ ys) = some (ds ++ es) := by
  induction xs generalizing ds with
  | nil =>
    simp [parseDigitVals] at hx
    simpa [hx] using hy
  | cons c cs ih =>
    rw [parseDigitVals] at hx
    cases hdv : digitVal? c with
    | none => rw [hdv] at hx; exact absurd hx (by simp)
    | some d =>
      rw [hdv] at hx
      cases hps : parseDigitVals cs with
      | none => rw [hps] at hx; exact absurd hx (by simp)
      | some ds' =>
        rw [hps] at hx
        simp at hx
        subst hx
        rw [List.cons_append, parseDigitVals, hdv, ih hps]
        simp

/-- Digit-value lists are bounded by `10 ^ length`. -/
theorem foldDigits_lt (ds : List Nat) (h : ∀ d ∈ ds, d < 10) :
    foldDigits ds < 10 ^ ds.length := by
  induction ds with
  | nil => simp [foldDigits]
  | cons d tl ih =>
    rw [foldDigits_cons, List.length_cons]
    have hd : d < 10 := h d (by simp)
    have htl : foldDigits tl < 10 ^ tl.length := ih (fun x hx => h x (by simp [hx]))
    calc d * 10 ^ tl.length + foldDigits tl
        < d * 10 ^ tl.length + 10 ^ tl.length := by omega
    _ = (d + 1) * 10 ^ tl.length := by ring
    _ ≤ 10 * 10 ^ tl.length := by
        exact Nat.mul_le_mul_right _ (by omega)
    _ = 10 ^ (tl.length + 1) := by ring

theorem natVals_length_le {n k : Nat} (hn : n < 10 ^ k) (hk : 1 ≤ k) :
    (natVals n).length ≤ k := by
  unfold natVals
  by_cases h0 : n = 0
  · simpa [h0] using hk
  · rw [if_neg h0, natDigitsLE_eq_digits n n le_rfl, List.length_reverse]
    rw [Nat.digits_len 10 n (by norm_num) h0]
    have := Nat.log_lt_of_lt_pow h0 hn
    omega

theorem lt_pow_natVals_length (n : Nat) : n < 10 ^ (natVals n).length := by
  unfold natVals
  by_cases h0 : n = 0
  · simp [h0]
  · rw [if_neg h0, natDigitsLE_eq_digits n n le_rfl, List.length_reverse]
    exact Nat.lt_base_pow_length_digits (by norm_num)

/-! ## strconv: ParseUint / ParseInt / Atoi / ParseBool / FormatBool -/

/-- Outcome tag mirroring Go strconv's `ErrSyntax` / `ErrRange` (or no error). -/
inductive ParseNumErr
  | ok
  | malformed
  | outOfRange
deriving DecidableEq

/-- Core loop of Go `strconv.ParseUint` (base 10): `maxVal` is the largest
representable value; a non-digit is a syntax error (returned value 0), an
overflow stops the scan with `maxVal` and a range error. -/
def parseUintLoop (maxVal : Nat) : List Char → Nat → Nat × ParseNumErr
  | [], acc => (acc, .ok)
  | c :: cs, acc =>
    match digitVal? c with
    | none => (0, .malformed)
    | some d =>
      if maxVal / 10 + 1 ≤ acc then (maxVal, .outOfRange)
      else if maxVal < acc * 10 + d then (maxVal, .outOfRange)
      else parseUintLoop maxVal cs (acc * 10 + d)

/-- Go `strconv.ParseUint(s, 10, bits)` on a sign-free character list
(an empty numeric part is a syntax error). -/
def goParseUint (maxVal : Nat) (cs : List Char) : Nat × ParseNumErr :=
  if cs = [] then (0, .malformed) else parseUintLoop maxVal cs 0

/-- The leading-sign handling of Go `strconv.ParseInt`: strips one optional
`+`/`-` and reports whether the number is negated. -/
def splitNumSign : List Char → Bool × List Char
  | [] => (false, [])
  | c :: rest =>
    if c = '+' then (false, rest)
    else if c = '-' then (true, rest)
    else (false, c :: rest)

/-- Go `strconv.ParseInt(s, 10, bits)`: `cutoff = 2 ^ (bits - 1)`.  An
optional sign, then `ParseUint`; out-of-range results are clamped to the
signed bounds with a range error. -/
def goParseIntSized (maxVal cutoff : Nat) (s : String) : Int × ParseNumErr :=
  if s.data = [] then (0, .malformed)
  else
    let neg := (splitNumSign s.data).1
    match goParseUint maxVal (splitNumSign s.data).2 with
    | (_, .malformed) => (0, .malformed)
    | (un, _) =>
      if ¬neg = true ∧ cutoff ≤ un then ((cutoff : Int) - 1, .outOfRange)
      else if neg = true ∧ cutoff < un then (-(cutoff : Int), .outOfRange)
      else (if neg then -(un : Int) else (un : Int), .ok)

/-- Go `strconv.Atoi` = `ParseInt(s, 10, 0)` with 64-bit `int`. -/
def goAtoi (s : String) : Int × ParseNumErr :=
  goParseIntSized (2 ^ 64 - 1) (2 ^ 63) s

/-- Go `strconv.ParseBool`: the accepted literal tokens; second component
is `false` when the input is not one of them (the returned value is then
`false`). -/
def goParseBool (s : String) : Bool × Bool :=
  if s = "1" ∨ s = "t" ∨ s = "T" ∨ s = "true" ∨ s = "TRUE" ∨ s = "True" then (true, true)
  else if s = "0" ∨ s = "f" ∨ s = "F" ∨ s = "false" ∨ s = "FALSE" ∨ s = "False" then (false, true)
  else (false, false)

/-- Go `strconv.FormatBool`. -/
def goFormatBool (b : Bool) : String := if b then "true" else "false"

theorem parseUintLoop_exact (maxVal : Nat) :
    ∀ (vs : List Nat) (acc : Nat), (∀ d ∈ vs, d < 10) →
      acc * 10 ^ vs.length + foldDigits vs ≤ maxVal →
      parseUintLoop maxVal (vs.map digitChar) acc =
        (acc * 10 ^ vs.length + foldDigits vs, .ok) := by
  intro vs
  induction vs with
  | nil =>
    intro acc _ _
    simp [parseUintLoop, foldDigits]
  | cons d tl ih =>
    intro acc hlt hle
    have hd : d < 10 := hlt d (by simp)
    rw [foldDigits_cons, List.length_cons] at hle
    have htotal : (acc * 10 + d) * 10 ^ tl.length + foldDigits tl ≤ maxVal := by
      calc (acc * 10 + d) * 10 ^ tl.length + foldDigits tl
          = acc * 10 ^ (tl.length + 1) + (d * 10 ^ tl.length + foldDigits tl) := by ring
        _ ≤ maxVal := hle
    have hstep : acc * 10 + d ≤ maxVal := by
      have h10 : 1 ≤ 10 ^ tl.length := Nat.one_le_pow _ _ (by norm_num)
      calc acc * 10 + d ≤ (acc * 10 + d) * 10 ^ tl.length + foldDigits tl := by
            nlinarith
        _ ≤ maxVal := htotal
    have hcut : ¬ (maxVal / 10 + 1 ≤ acc) := by
      intro hc
      have : maxVal < acc * 10 := by omega
      omega
    rw [List.map_cons, parseUintLoop, digitVal?_digitChar hd]
    simp only [hcut, if_false, Nat.not_lt.mpr hstep, if_false]
    rw [ih (acc * 10 + d) (fun x hx => hlt x (by simp [hx])) htotal]
    rw [List.length_cons, foldDigits_cons]
    simp only [Prod.mk.injEq]
    exact ⟨by ring, trivial⟩

theorem natToChars_ne_nil (n : Nat) : natToChars n ≠ [] := by
  unfold natToChars natVals
  by_cases h0 : n = 0
  · simp [h0]
  · rw [if_neg h0]
    have : Nat.digits 10 n ≠ [] := Nat.digits_ne_nil_iff_ne_zero.mpr h0
    rw [natDigitsLE_eq_digits n n le_rfl]
    simpa using this

theorem goParseUint_natVals {maxVal n : Nat} (h : n ≤ maxVal) :
    goParseUint maxVal (natToChars n) = (n, .ok) := by
  unfold goParseUint
  rw [if_neg (natToChars_ne_nil n)]
  unfold natToChars
  rw [parseUintLoop_exact maxVal (natVals n) 0 natVals_lt_ten
    (by simpa [foldDigits_natVals] using h)]
  simp [foldDigits_natVals]

theorem digitChar_ne_sign {d : Nat} (h : d < 10) :
    digitChar d ≠ '+' ∧ digitChar d ≠ '-' := by
  interval_cases d <;> exact ⟨by decide, by decide⟩

theorem natToChars_head_not_sign {n : Nat} {c : Char} {rest : List Char}
    (h : natToChars n = c :: rest) : ¬ c = '+' ∧ ¬ c = '-' := by
  have hc : c ∈ natToChars n := by rw [h]; simp
  unfold natToChars at hc
  obtain ⟨d, hd, hcd⟩ := List.mem_map.mp hc
  have : d < 10 := natVals_lt_ten d hd
  obtain ⟨h1, h2⟩ := digitChar_ne_sign this
  exact ⟨fun he => h1 (hcd ▸ he), fun he => h2 (hcd ▸ he)⟩

theorem splitNumSign_minus (cs : List Char) : splitNumSign ('-' :: cs) = (true, cs) := by
  simp [splitNumSign]

theorem splitNumSign_natToChars (n : Nat) :
    splitNumSign (natToChars n) = (false, natToChars n) := by
  cases hc : natToChars n with
  | nil => exact absurd hc (natToChars_ne_nil n)
  | cons c rest =>
    obtain ⟨h1, h2⟩ := natToChars_head_not_sign hc
    simp [splitNumSign, h1, h2]

/-- `ParseInt` inverts decimal formatting for every value in the signed range. -/
theorem goParseIntSized_intToChars {maxVal cutoff : Nat} {i : Int}
    (hmc : cutoff ≤ maxVal) (hlo : -(cutoff : Int) ≤ i) (hhi : i < (cutoff : Int)) :
    goParseIntSized maxVal cutoff (String.mk (intToChars i)) = (i, .ok) := by
  by_cases hneg : i < 0
  · -- negative: '-' followed by the digits of |i|
    have hchars : intToChars i = '-' :: natToChars i.natAbs := by
      unfold intToChars; rw [if_pos hneg]
    have habs_le : i.natAbs ≤ cutoff := by omega
    have hdata : (String.mk (intToChars i)).data = '-' :: natToChars i.natAbs := hchars
    unfold goParseIntSized
    rw [hdata, if_neg (by simp), splitNumSign_minus]
    simp only []
    rw [goParseUint_natVals (le_trans habs_le hmc)]
    have hnotlt : ¬ cutoff < i.natAbs := by omega
    have hval : -((i.natAbs : Nat) : Int) = i := by omega
    simp [hnotlt, hval]
    rw [abs_of_neg hneg]
    ring
  · -- non-negative: plain digits
    push_neg at hneg
    have hchars : intToChars i = natToChars i.natAbs := by
      unfold intToChars; rw [if_neg (by omega)]
    have habs_lt : i.natAbs < cutoff := by omega
    have hdata : (String.mk (intToChars i)).data = natToChars i.natAbs := hchars
    unfold goParseIntSized
    rw [hdata, if_neg (natToChars_ne_nil _), splitNumSign_natToChars]
    simp only []
    rw [goParseUint_natVals (le_trans (le_of_lt habs_lt) hmc)]
    have hnotle : ¬ cutoff ≤ i.natAbs := by omega
    have hval : ((i.natAbs : Nat) : Int) = i := by omega
    simp [hnotle, hval]

theorem parseUintLoop_malformed_val (maxVal : Nat) :
    ∀ (cs : List Char) (acc : Nat),
      (parseUintLoop maxVal cs acc).2 = .malformed → (parseUintLoop maxVal cs acc).1 = 0 := by
  intro cs
  induction cs with
  | nil => intro acc h; simp [parseUintLoop] at h
  | cons c tl ih =>
    intro acc h
    unfold parseUintLoop at h ⊢
    cases hdv : digitVal? c with
    | none => simp [hdv]
    | some d =>
      simp only [hdv] at h ⊢
      by_cases h1 : maxVal / 10 + 1 ≤ acc
      · simp [if_pos h1] at h
      · simp only [if_neg h1] at h ⊢
        by_cases h2 : maxVal < acc * 10 + d
        · simp [if_pos h2] at h
        · simp only [if_neg h2] at h ⊢
          exact ih _ h

/-- A syntax error from `ParseInt` always carries the value 0. -/
theorem goParseIntSized_malformed_val {maxVal cutoff : Nat} {s : String}
    (h : (goParseIntSized maxVal cutoff s).2 = .malformed) :
    (goParseIntSized maxVal cutoff s).1 = 0 := by
  unfold goParseIntSized at h ⊢
  by_cases hd0 : s.data = []
  · rw [if_pos hd0]
  · rw [if_neg hd0] at h ⊢
    split at h
    · rfl
    · simp only [] at h ⊢
      split at h
      · exact absurd h (by simp)
      · split at h
        · exact absurd h (by simp)
        · exact absurd h (by simp)

/-! ## Fixed-width digit fields (used by the RFC 3339 timestamp format) -/

/-- A number printed left-padded with zeroes to width `k` (Go's
`appendInt(..., width)` used by `time.Format`). -/
def padChars (k n : Nat) : List Char :=
  List.replicate (k - (natToChars n).length) '0' ++ natToChars n

/-- Read exactly `k` decimal digits; returns the value and the rest. -/
def parseFixedNat (k : Nat) (cs : List Char) : Option (Nat × List Char) :=
  if (cs.take k).length = k then
    match parseDigitVals (cs.take k) with
    | some ds => some (foldDigits ds, cs.drop k)
    | none => none
  else none

theorem padChars_length {k n : Nat} (h : n < 10 ^ k) (hk : 1 ≤ k) :
    (padChars k n).length = k := by
  unfold padChars
  rw [List.length_append, List.length_replicate]
  have hle : (natToChars n).length ≤ k := by
    unfold natToChars
    rw [List.length_map]
    exact natVals_length_le h hk
  omega

theorem parseDigitVals_padChars (k n : Nat) :
    parseDigitVals (padChars k n) =
      some (List.replicate (k - (natToChars n).length) 0 ++ natVals n) := by
  unfold padChars natToChars
  rw [show ('0' : Char) = digitChar 0 by decide, ← List.map_replicate, ← List.map_append]
  refine parseDigitVals_map_digitChar _ ?_
  intro d hd
  rcases List.mem_append.mp hd with h1 | h2
  · have := List.eq_of_mem_replicate h1
    omega
  · exact natVals_lt_ten d h2

theorem parseFixedNat_pad {k n : Nat} {rest : List Char} (h : n < 10 ^ k) (hk : 1 ≤ k) :
    parseFixedNat k (padChars k n ++ rest) = some (n, rest) := by
  have hlen := padChars_length (k := k) (n := n) h hk
  have htake : (padChars k n ++ rest).take k = padChars k n := by
    have := List.take_left (padChars k n) rest
    rwa [hlen] at this
  have hdrop : (padChars k n ++ rest).drop k = rest := by
    have := List.drop_left (padChars k n) rest
    rwa [hlen] at this
  unfold parseFixedNat
  rw [htake, hdrop, hlen, if_pos rfl, parseDigitVals_padChars]
  simp only []
  rw [foldDigits_zero_pad, foldDigits_natVals]

/-! ## time.Time: UTC components, RFC 3339 formatting and parsing -/

/-- A `time.Time`, modelled by its broken-down UTC components.  This package
only ever constructs UTC instants (the zero time, or values parsed from the
`Z`-suffixed strings it prints), so no location/offset component is kept. -/
structure GoTime where
  year : Nat
  month : Nat
  day : Nat
  hour : Nat
  minute : Nat
  second : Nat
  nanosecond : Nat
deriving DecidableEq

/-- The Go zero `time.Time{}`: January 1, year 1, 00:00:00 UTC. -/
def zeroTime : GoTime := ⟨1, 1, 1, 0, 0, 0, 0⟩

def isLeapYear (y : Nat) : Bool := y % 4 = 0 ∧ (y % 100 ≠ 0 ∨ y % 400 = 0)

def daysInMonth (y m : Nat) : Nat :=
  if m = 2 then (if isLeapYear y then 29 else 28)
  else if m = 4 ∨ m = 6 ∨ m = 9 ∨ m = 11 then 30
  else 31

/-- The instants representable in a four-digit-year RFC 3339 string: the
"in-range" values of the Timestamp variant. -/
def goTimeInRange (t : GoTime) : Prop :=
  t.year ≤ 9999 ∧ 1 ≤ t.month ∧ t.month ≤ 12 ∧ 1 ≤ t.day ∧
    t.day ≤ daysInMonth t.year t.month ∧ t.hour ≤ 23 ∧ t.minute ≤ 59 ∧
    t.second ≤ 59 ∧ t.nanosecond < 1000000000

instance (t : GoTime) : Decidable (goTimeInRange t) := by
  unfold goTimeInRange
  infer_instance

/-- Go `time.Time.Format(time.RFC3339)` for a UTC time (the offset prints
as `Z`).  RFC 3339 without a fractional-second directive: nanoseconds are
not printed. -/
def formatRFC3339 (t : GoTime) : List Char :=
  padChars 4 t.year ++ ('-' :: (padChars 2 t.month ++ ('-' :: (padChars 2 t.day ++ ('T' :: (padChars 2 t.hour ++ (':' :: (padChars 2 t.minute ++ (':' :: (padChars 2 t.second ++ ['Z']))))))))))

def expectChar (c : Char) : List Char → Option (List Char)
  | [] => none
  | x :: xs => if x = c then some xs else none

def isDigitChar (c : Char) : Bool := decide ('0' ≤ c ∧ c ≤ '9')

/-- Optional fractional seconds Go's parser accepts right after the seconds
field: a dot followed by 1–9 digits, scaled to nanoseconds. -/
def parseFrac : List Char → Option (Nat × List Char)
  | '.' :: cs =>
    let ds := cs.takeWhile isDigitChar
    if ds = [] then none
    else if 9 < ds.length then none
    else
      match parseDigitVals ds with
      | some vs => some (foldDigits vs * 10 ^ (9 - ds.length), cs.dropWhile isDigitChar)
      | none => none
  | _ => none

/-- Go `time.Parse(time.RFC3339, s)` for `Z`-offset (UTC) inputs — the only
offset this package's strings carry.  Go validates the component ranges
(month, day-of-month against the month's length, hour, minute, second)
before building the instant; a failed validation is a parse error. -/
def parseRFC3339 (s : String) : Option GoTime := do
  let (y, r1) ← parseFixedNat 4 s.data
  let r2 ← expectChar '-' r1
  let (mo, r3) ← parseFixedNat 2 r2
  let r4 ← expectChar '-' r3
  let (d, r5) ← parseFixedNat 2 r4
  let r6 ← expectChar 'T' r5
  let (h, r7) ← parseFixedNat 2 r6
  let r8 ← expectChar ':' r7
  let (mi, r9) ← parseFixedNat 2 r8
  let r10 ← expectChar ':' r9
  let (sec, r11) ← parseFixedNat 2 r10
  let (ns, r12) ←
    (if r11.head? = some '.' then parseFrac r11 else some (0, r11))
  let r13 ← expectChar 'Z' r12
  if r13 = [] ∧ 1 ≤ mo ∧ mo ≤ 12 ∧ 1 ≤ d ∧ d ≤ daysInMonth y mo ∧
      h ≤ 23 ∧ mi ≤ 59 ∧ sec ≤ 59 then
    some ⟨y, mo, d, h, mi, sec, ns⟩
  else none

/-- Go `time.Time.Equal` compares instants; in the UTC component model this
is componentwise equality (nanoseconds included). -/
def timeEqual (t u : GoTime) : Bool := t == u

/-- Go `time.Time.Before`: chronological order, i.e. lexicographic on the
UTC components. -/
def timeBefore (t u : GoTime) : Bool :=
  if t.year ≠ u.year then decide (t.year < u.year)
  else if t.month ≠ u.month then decide (t.month < u.month)
  else if t.day ≠ u.day then decide (t.day < u.day)
  else if t.hour ≠ u.hour then decide (t.hour < u.hour)
  else if t.minute ≠ u.minute then decide (t.minute < u.minute)
  else if t.second ≠ u.second then decide (t.second < u.second)
  else decide (t.nanosecond < u.nanosecond)

def timeAfter (t u : GoTime) : Bool := timeBefore u t

/-- Go `time.Time.IsZero`. -/
def timeIsZero (t : GoTime) : Bool := t == zeroTime

theorem expectChar_cons_self (c : Char) (xs : List Char) :
    expectChar c (c :: xs) = some xs := by
  simp [expectChar]

theorem daysInMonth_le (y m : Nat) : daysInMonth y m ≤ 31 := by
  unfold daysInMonth
  split
  · split <;> omega
  · split <;> omega

set_option maxHeartbeats 1000000 in
/-- Parsing inverts formatting for in-range whole-second UTC instants. -/
theorem parseRFC3339_format {t : GoTime} (hin : goTimeInRange t) (hns : t.nanosecond = 0) :
    parseRFC3339 (String.mk (formatRFC3339 t)) = some t := by
  obtain ⟨hy, hm1, hm2, hd1, hd2, hh, hmi, hs, _⟩ := hin
  have hyp : t.year < 10 ^ 4 := by omega
  have hmp : t.month < 10 ^ 2 := by omega
  have hdp : t.day < 10 ^ 2 := by
    have := daysInMonth_le t.year t.month
    omega
  have hhp : t.hour < 10 ^ 2 := by omega
  have hmip : t.minute < 10 ^ 2 := by omega
  have hsp : t.second < 10 ^ 2 := by omega
  unfold parseRFC3339
  rw [show (String.mk (formatRFC3339 t)).data = formatRFC3339 t from rfl]
  unfold formatRFC3339
  rw [parseFixedNat_pad hyp (by norm_num)]
  rw [Option.bind_eq_bind', Option.some_bind']
  try simp only []
  rw [expectChar_cons_self]
  rw [Option.bind_eq_bind', Option.some_bind']
  try simp only []
  rw [parseFixedNat_pad hmp (by norm_num)]
  rw [Option.bind_eq_bind', Option.some_bind']
  try simp only []
  rw [expectChar_cons_self]
  rw [Option.bind_eq_bind', Option.some_bind']
  try simp only []
  rw [parseFixedNat_pad hdp (by norm_num)]
  rw [Option.bind_eq_bind', Option.some_bind']
  try simp only []
  rw [expectChar_cons_self]
  rw [Option.bind_eq_bind', Option.some_bind']
  try simp only []
  rw [parseFixedNat_pad hhp (by norm_num)]
  rw [Option.bind_eq_bind', Option.some_bind']
  try simp only []
  rw [expectChar_cons_self]
  rw [Option.bind_eq_bind', Option.some_bind']
  try simp only []
  rw [parseFixedNat_pad hmip (by norm_num)]
  rw [Option.bind_eq_bind', Option.some_bind']
  try simp only []
  rw [expectChar_cons_self]
  rw [Option.bind_eq_bind', Option.some_bind']
  try simp only []
  rw [parseFixedNat_pad hsp (by norm_num)]
  rw [Option.bind_eq_bind', Option.some_bind']
  try simp only []
  rw [if_neg (by decide)]
  rw [Option.bind_eq_bind', Option.some_bind']
  try simp only []
  rw [expectChar_cons_self]
  rw [Option.bind_eq_bind', Option.some_bind']
  try simp only []
  rw [if_pos (by exact ⟨by trivial, hm1, hm2, hd1, hd2, hh, hmi, hs⟩)]
  cases t
  simp only at hns
  subst hns
  rfl

/-! ## shopspring/decimal: coefficient × 10^exp -/

/-- A `decimal.Decimal`: arbitrary-precision coefficient `value` and an
`int32` exponent `exp` (the represented number is `value * 10 ^ exp`). -/
structure GoDecimal where
  value : Int
  exp : Int
deriving DecidableEq

/-- shopspring `Decimal.Cmp`: rescale both operands to the smaller exponent
(pure coefficient multiplication) and compare the coefficients. -/
def decCmp (d1 d2 : GoDecimal) : Int :=
  let m := min d1.exp d2.exp
  let v1 := d1.value * 10 ^ (d1.exp - m).toNat
  let v2 := d2.value * 10 ^ (d2.exp - m).toNat
  if v1 < v2 then -1 else if v1 = v2 then 0 else 1

/-- shopspring `Decimal.Equal`: `Cmp == 0`. -/
def decEqual (d1 d2 : GoDecimal) : Bool := decCmp d1 d2 == 0

/-- shopspring `Decimal.LessThan`: `Cmp == -1`. -/
def decLessThan (d1 d2 : GoDecimal) : Bool := decCmp d1 d2 == -1

/-- shopspring `Decimal.GreaterThan`: `Cmp == 1`. -/
def decGreaterThan (d1 d2 : GoDecimal) : Bool := decCmp d1 d2 == 1

/-- shopspring `Decimal.IsZero`: the coefficient's sign is 0. -/
def decIsZero (d : GoDecimal) : Bool := d.value == 0

/-- The zero `decimal.Decimal{}`. -/
def zeroDecimal : GoDecimal := ⟨0, 0⟩

/-- Trailing `'0'` characters removed (shopspring trims the fractional part
this way in `String`). -/
def dropTrailingZeroChars (l : List Char) : List Char :=
  (l.reverse.dropWhile (fun c => c = '0')).reverse

/-- shopspring `Decimal.String`: for `exp ≥ 0` rescale to exponent 0 and
print an integer; for `exp < 0` print the coefficient's digits with a
decimal point inserted `-exp` places from the right (left-padding with
zeroes when the coefficient is short), trailing fractional zeroes trimmed,
and a leading `-` for negative values. -/
def decToChars (d : GoDecimal) : List Char :=
  if 0 ≤ d.exp then
    intToChars (d.value * 10 ^ d.exp.toNat)
  else
    let absChars := natToChars d.value.natAbs
    let n := (-d.exp).toNat
    let body :=
      if n < absChars.length then
        let fp := dropTrailingZeroChars (absChars.drop (absChars.length - n))
        if fp = [] then absChars.take (absChars.length - n)
        else absChars.take (absChars.length - n) ++ '.' :: fp
      else
        let fp := dropTrailingZeroChars (List.replicate (n - absChars.length) '0' ++ absChars)
        if fp = [] then ['0'] else '0' :: '.' :: fp
    if d.value < 0 then '-' :: body else body

/-- Split at the first character satisfying `p` (the matched character is
dropped); `none` when no character matches. -/
def splitAtFirst? (p : Char → Bool) : List Char → Option (List Char × List Char)
  | [] => none
  | c :: cs =>
    if p c then some ([], cs)
    else
      match splitAtFirst? p cs with
      | some (pre, post) => some (c :: pre, post)
      | none => none

/-- `big.Int.SetString` (base 10): an optional sign then a nonempty digit
run, parsed exactly. -/
def parseSignedDigits (cs : List Char) : Option Int :=
  if (splitNumSign cs).2 = [] then none
  else
    match parseDigitVals (splitNumSign cs).2 with
    | none => none
    | some ds =>
      some (if (splitNumSign cs).1 then -(foldDigits ds : Int) else (foldDigits ds : Int))

/-- shopspring `NewFromString`'s coefficient parse: `strconv.ParseInt` for
strings of at most 18 characters (which cannot overflow int64),
`big.Int.SetString` otherwise. -/
def decParseIntString (cs : List Char) : Option Int :=
  if cs.length ≤ 18 then
    match goParseIntSized (2 ^ 64 - 1) (2 ^ 63) (String.mk cs) with
    | (v, .ok) => some v
    | _ => none
  else parseSignedDigits cs

/-- shopspring `decimal.NewFromString`: an optional `e`/`E` exponent part
(parsed as a 32-bit integer), at most one dot; the coefficient is the digit
string with the dot removed and the exponent is decreased by the length of
the fractional part; the final exponent must fit in int32. -/
def decNewFromString (s : String) : Option GoDecimal :=
  let mantAndExp : Option (List Char × Int) :=
    match splitAtFirst? (fun c => c = 'e' ∨ c = 'E') s.data with
    | none => some (s.data, 0)
    | some (mant, expPart) =>
      match goParseIntSized (2 ^ 32 - 1) (2 ^ 31) (String.mk expPart) with
      | (e, .ok) => some (mant, e)
      | _ => none
  match mantAndExp with
  | none => none
  | some (mant, exp0) =>
    match splitAtFirst? (fun c => c = '.') mant with
    | none =>
      match decParseIntString mant with
      | none => none
      | some v =>
        if -(2 ^ 31 : Int) ≤ exp0 ∧ exp0 ≤ 2 ^ 31 - 1 then some ⟨v, exp0⟩ else none
    | some (pre, post) =>
      if post.any (fun c => c = '.') then none
      else
        match decParseIntString (pre ++ post) with
        | none => none
        | some v =>
          if -(2 ^ 31 : Int) ≤ exp0 - post.length ∧ exp0 - post.length ≤ 2 ^ 31 - 1 then
            some ⟨v, exp0 - post.length⟩
          else none

/-! ## Lemmas about digit-character lists and the decimal string forms -/

theorem digitVal?_inv {c : Char} {d : Nat} (h : digitVal? c = some d) :
    c = digitChar d ∧ d < 10 := by
  unfold digitVal? at h
  by_cases hc : '0' ≤ c ∧ c ≤ '9'
  · rw [if_pos hc] at h
    obtain ⟨h1, h2⟩ := hc
    have hd : d = c.toNat - 48 := by simpa using h.symm
    have h48 : 48 ≤ c.toNat := h1
    have h57 : c.toNat ≤ 57 := h2
    constructor
    · subst hd
      unfold digitChar
      have : 48 + (c.toNat - 48) = c.toNat := by omega
      rw [this]
      exact (Char.ofNat_toNat c).symm
    · omega
  · rw [if_neg hc] at h
    exact absurd h (by simp)

theorem parseDigitVals_inv : ∀ {l : List Char} {vs : List Nat},
    parseDigitVals l = some vs → l = vs.map digitChar ∧ ∀ d ∈ vs, d < 10 := by
  intro l
  induction l with
  | nil =>
    intro vs h
    simp [parseDigitVals] at h
    exact ⟨by simp [h], by simp [h]⟩
  | cons c cs ih =>
    intro vs h
    rw [parseDigitVals] at h
    cases hdv : digitVal? c with
    | none => rw [hdv] at h; exact absurd h (by simp)
    | some d =>
      rw [hdv] at h
      cases hps : parseDigitVals cs with
      | none => rw [hps] at h; exact absurd h (by simp)
      | some ds =>
        rw [hps] at h
        simp at h
        subst h
        obtain ⟨hc, hd10⟩ := digitVal?_inv hdv
        obtain ⟨hcs, hds⟩ := ih hps
        refine ⟨by rw [List.map_cons, ← hc, ← hcs], ?_⟩
        intro x hx
        rcases List.mem_cons.mp hx with rfl | hx'
        · exact hd10
        · exact hds x hx'

theorem parseDigitVals_length {l : List Char} {vs : List Nat}
    (h : parseDigitVals l = some vs) : vs.length = l.length := by
  obtain ⟨hl, _⟩ := parseDigitVals_inv h
  rw [hl, List.length_map]

theorem digitChar_range {d : Nat} (h : d < 10) : '0' ≤ digitChar d ∧ digitChar d ≤ '9' := by
  interval_cases d <;> exact ⟨by decide, by decide⟩

theorem digitRange_ne {c : Char} (h1 : '0' ≤ c) (h2 : c ≤ '9') :
    c ≠ 'e' ∧ c ≠ 'E' ∧ c ≠ '.' ∧ c ≠ '-' ∧ c ≠ '+' := by
  refine ⟨fun hc => ?_, fun hc => ?_, fun hc => ?_, fun hc => ?_, fun hc => ?_⟩ <;> subst hc
  · exact absurd h2 (by decide)
  · exact absurd h2 (by decide)
  · exact absurd h1 (by decide)
  · exact absurd h1 (by decide)
  · exact absurd h1 (by decide)

theorem splitAtFirst?_none {p : Char → Bool} :
    ∀ {l : List Char}, (∀ c ∈ l, p c = false) → splitAtFirst? p l = none := by
  intro l
  induction l with
  | nil => intro _; rfl
  | cons c cs ih =>
    intro h
    unfold splitAtFirst?
    rw [if_neg (by simp [h c (by simp)]), ih (fun x hx => h x (by simp [hx]))]

theorem splitAtFirst?_first {p : Char → Bool} {c : Char} (hc : p c = true) :
    ∀ (l1 l2 : List Char), (∀ x ∈ l1, p x = false) →
      splitAtFirst? p (l1 ++ c :: l2) = some (l1, l2) := by
  intro l1
  induction l1 with
  | nil =>
    intro l2 _
    rw [List.nil_append]
    unfold splitAtFirst?
    rw [if_pos hc]
  | cons x xs ih =>
    intro l2 h
    rw [List.cons_append]
    unfold splitAtFirst?
    rw [if_neg (by simp [h x (by simp)]), ih l2 (fun y hy => h y (by simp [hy]))]

theorem dropTrailingZeroChars_spec (l : List Char) :
    l = dropTrailingZeroChars l ++
      List.replicate (l.length - (dropTrailingZeroChars l).length) '0' := by
  have hsplit := List.takeWhile_append_dropWhile (p := fun c => c = '0') (l := l.reverse)
  have hrep : l.reverse.takeWhile (fun c => decide (c = '0')) =
      List.replicate (l.reverse.takeWhile (fun c => decide (c = '0'))).length '0' := by
    refine List.eq_replicate_of_mem ?_
    intro b hb
    have := List.mem_takeWhile_imp hb
    simpa using this
  have hlenB : (dropTrailingZeroChars l).length ≤ l.length := by
    unfold dropTrailingZeroChars
    rw [List.length_reverse]
    calc (l.reverse.dropWhile fun c => c = '0').length
        ≤ l.reverse.length := (List.dropWhile_sublist _).length_le
      _ = l.length := List.length_reverse l
  have hlen : (l.reverse.takeWhile (fun c => decide (c = '0'))).length =
      l.length - (dropTrailingZeroChars l).length := by
    have := congrArg List.length hsplit
    rw [List.length_append, List.length_reverse] at this
    unfold dropTrailingZeroChars
    rw [List.length_reverse]
    omega
  conv_lhs => rw [← List.reverse_reverse l, ← hsplit]
  rw [List.reverse_append]
  unfold dropTrailingZeroChars
  congr 1
  rw [hrep, List.reverse_replicate, hlen]
  rfl

theorem dropTrailingZeroChars_subset {l : List Char} {c : Char}
    (h : c ∈ dropTrailingZeroChars l) : c ∈ l := by
  unfold dropTrailingZeroChars at h
  rw [List.mem_reverse] at h
  have := List.dropWhile_subset (p := fun c => decide (c = '0')) (l := l.reverse) h
  rwa [List.mem_reverse] at this

theorem parseDigitVals_replicate_zero (k : Nat) :
    parseDigitVals (List.replicate k '0') = some (List.replicate k 0) := by
  have h0 : digitChar 0 = '0' := by decide
  have h : List.replicate k '0' = (List.replicate k 0).map digitChar := by
    rw [List.map_replicate, h0]
  rw [h]
  refine parseDigitVals_map_digitChar _ ?_
  intro d hd
  have := List.eq_of_mem_replicate hd
  omega

theorem goParseUint_digits {maxVal : Nat} {dcs : List Char} {vs : List Nat}
    (h : parseDigitVals dcs = some vs) (hne : dcs ≠ [])
    (hle : foldDigits vs ≤ maxVal) :
    goParseUint maxVal dcs = (foldDigits vs, .ok) := by
  obtain ⟨hmap, h10⟩ := parseDigitVals_inv h
  unfold goParseUint
  rw [if_neg hne, hmap,
    parseUintLoop_exact maxVal vs 0 h10 (by simpa using hle)]
  simp

theorem map_digitChar_head_not_sign {vs : List Nat} {c : Char} {rest : List Char}
    (h10 : ∀ d ∈ vs, d < 10) (h : vs.map digitChar = c :: rest) :
    ¬ c = '+' ∧ ¬ c = '-' := by
  have hc : c ∈ vs.map digitChar := by rw [h]; simp
  obtain ⟨d, hd, hcd⟩ := List.mem_map.mp hc
  obtain ⟨h1, h2⟩ := digitChar_ne_sign (h10 d hd)
  exact ⟨fun he => h1 (hcd ▸ he), fun he => h2 (hcd ▸ he)⟩

theorem splitNumSign_digits {dcs : List Char} {vs : List Nat}
    (h : parseDigitVals dcs = some vs) :
    splitNumSign dcs = (false, dcs) := by
  obtain ⟨hmap, h10⟩ := parseDigitVals_inv h
  cases hc : dcs with
  | nil => rfl
  | cons c cs =>
    obtain ⟨h1, h2⟩ := map_digitChar_head_not_sign h10 (by rw [← hmap, hc])
    simp [splitNumSign, h1, h2]

theorem decParseIntString_digits {dcs : List Char} {vs : List Nat}
    (h : parseDigitVals dcs = some vs) (hne : dcs ≠ []) :
    decParseIntString dcs = some ((foldDigits vs : Int)) ∧
      decParseIntString ('-' :: dcs) = some (-(foldDigits vs : Int)) := by
  have hlenvs : vs.length = dcs.length := parseDigitVals_length h
  have hfold_lt : foldDigits vs < 10 ^ dcs.length := by
    have := foldDigits_lt vs (parseDigitVals_inv h).2
    rwa [hlenvs] at this
  constructor
  · unfold decParseIntString
    by_cases hl : dcs.length ≤ 18
    · rw [if_pos hl]
      have hbound : foldDigits vs < 2 ^ 63 := by
        calc foldDigits vs < 10 ^ dcs.length := hfold_lt
          _ ≤ 10 ^ 18 := Nat.pow_le_pow_right (by norm_num) hl
          _ < 2 ^ 63 := by norm_num
      have hps : goParseIntSized (2 ^ 64 - 1) (2 ^ 63) (String.mk dcs) =
          ((foldDigits vs : Int), .ok) := by
        unfold goParseIntSized
        rw [show (String.mk dcs).data = dcs from rfl, if_neg hne, splitNumSign_digits h]
        simp only []
        rw [goParseUint_digits h hne (le_of_lt (lt_trans hbound (by norm_num)))]
        have hnotle : ¬ (2 : Nat) ^ 63 ≤ foldDigits vs := Nat.not_le.mpr hbound
        norm_num at hbound
        simp [hnotle]
        omega
      rw [hps]
    · rw [if_neg hl]
      unfold parseSignedDigits
      rw [splitNumSign_digits h]
      simp only []
      rw [if_neg hne, h]
      simp
  · unfold decParseIntString
    by_cases hl : ('-' :: dcs).length ≤ 18
    · rw [if_pos hl]
      rw [List.length_cons] at hl
      have hbound : foldDigits vs < 2 ^ 63 := by
        calc foldDigits vs < 10 ^ dcs.length := hfold_lt
          _ ≤ 10 ^ 17 := Nat.pow_le_pow_right (by norm_num) (by omega)
          _ < 2 ^ 63 := by norm_num
      have hps : goParseIntSized (2 ^ 64 - 1) (2 ^ 63) (String.mk ('-' :: dcs)) =
          (-(foldDigits vs : Int), .ok) := by
        unfold goParseIntSized
        rw [show (String.mk ('-' :: dcs)).data = '-' :: dcs from rfl,
          if_neg (by simp), splitNumSign_minus]
        simp only []
        rw [goParseUint_digits h hne (le_of_lt (lt_trans hbound (by norm_num)))]
        have hnotlt : ¬ (2 : Nat) ^ 63 < foldDigits vs := Nat.lt_asymm hbound
        norm_num at hbound
        simp [hnotlt]
        omega
      rw [hps]
    · rw [if_neg hl]
      unfold parseSignedDigits
      rw [splitNumSign_minus]
      simp only []
      rw [if_neg hne, h]
      simp

theorem decParseIntString_intToChars (i : Int) :
    decParseIntString (intToChars i) = some i := by
  have hp : parseDigitVals (natToChars i.natAbs) = some (natVals i.natAbs) :=
    parseDigitVals_map_digitChar _ natVals_lt_ten
  have hne := natToChars_ne_nil i.natAbs
  obtain ⟨hpos, hneg⟩ := decParseIntString_digits hp hne
  unfold intToChars
  by_cases hi : i < 0
  · rw [if_pos hi, hneg, foldDigits_natVals]
    have hv : -((i.natAbs : Nat) : Int) = i := by omega
    rw [hv]
  · rw [if_neg hi, hpos, foldDigits_natVals]
    have hv : ((i.natAbs : Nat) : Int) = i := by omega
    rw [hv]

theorem decEqual_iff {d1 d2 : GoDecimal} :
    decEqual d1 d2 = true ↔
      d1.value * 10 ^ (d1.exp - min d1.exp d2.exp).toNat =
        d2.value * 10 ^ (d2.exp - min d1.exp d2.exp).toNat := by
  unfold decEqual decCmp
  simp only []
  split
  · rename_i hlt
    simp only [show ((-1 : Int) == 0) = false by decide, Bool.false_eq_true, false_iff]
    omega
  · split
    · rename_i heq
      simp only [show ((0 : Int) == 0) = true by decide, true_iff]
      exact heq
    · rename_i hlt heq
      simp only [show ((1 : Int) == 0) = false by decide, Bool.false_eq_true, false_iff]
      exact heq

theorem parseDigitVals_append_inv : ∀ {xs ys : List Char} {vs : List Nat},
    parseDigitVals (xs ++ ys) = some vs →
    ∃ v1 v2, parseDigitVals xs = some v1 ∧ parseDigitVals ys = some v2 ∧ vs = v1 ++ v2 := by
  intro xs
  induction xs with
  | nil =>
    intro ys vs h
    exact ⟨[], vs, rfl, by simpa using h, rfl⟩
  | cons c cs ih =>
    intro ys vs h
    rw [List.cons_append, parseDigitVals] at h
    cases hdv : digitVal? c with
    | none => rw [hdv] at h; exact absurd h (by simp)
    | some d =>
      rw [hdv] at h
      cases hps : parseDigitVals (cs ++ ys) with
      | none => rw [hps] at h; exact absurd h (by simp)
      | some ds =>
        rw [hps] at h
        simp at h
        subst h
        obtain ⟨v1, v2, h1, h2, h3⟩ := ih hps
        refine ⟨d :: v1, v2, ?_, h2, by simp [h3]⟩
        rw [parseDigitVals, hdv, h1]

theorem dropTrailing_parse {rawFp : List Char} {rawV : List Nat}
    (h : parseDigitVals rawFp = some rawV) :
    ∃ fpV, parseDigitVals (dropTrailingZeroChars rawFp) = some fpV ∧
      rawV = fpV ++ List.replicate (rawFp.length - (dropTrailingZeroChars rawFp).length) 0 := by
  have hspec := dropTrailingZeroChars_spec rawFp
  have h' : parseDigitVals (dropTrailingZeroChars rawFp ++
      List.replicate (rawFp.length - (dropTrailingZeroChars rawFp).length) '0') = some rawV := by
    rw [← hspec]; exact h
  obtain ⟨v1, v2, h1, h2, h3⟩ := parseDigitVals_append_inv h'
  have hv2 : v2 = List.replicate (rawFp.length - (dropTrailingZeroChars rawFp).length) 0 := by
    have := parseDigitVals_replicate_zero (rawFp.length - (dropTrailingZeroChars rawFp).length)
    rw [this] at h2
    simpa using h2.symm
  exact ⟨v1, h1, by rw [h3, hv2]⟩

theorem decNewFromString_assembled {v e : Int} {IP fp : List Char} {ipV fpV : List Nat} {t : Nat}
    (hexp : e < 0) (hlo : -(2 ^ 31) ≤ e)
    (hip : parseDigitVals IP = some ipV) (hipne : IP ≠ [])
    (hfp : parseDigitVals fp = some fpV)
    (hfold : (foldDigits (ipV ++ fpV) : Int) * 10 ^ t = (v.natAbs : Int))
    (hlen : (fp.length : Int) + t = -e) :
    ∃ d', decNewFromString (String.mk
        ((if v < 0 then ['-'] else []) ++ IP ++ (if fp = [] then [] else '.' :: fp))) = some d' ∧
      decEqual d' ⟨v, e⟩ = true := by
  obtain ⟨hipMap, hip10⟩ := parseDigitVals_inv hip
  obtain ⟨hfpMap, hfp10⟩ := parseDigitVals_inv hfp
  have hIPdigit : ∀ c ∈ IP, '0' ≤ c ∧ c ≤ '9' := by
    intro c hc
    rw [hipMap] at hc
    obtain ⟨x, hx, rfl⟩ := List.mem_map.mp hc
    exact digitChar_range (hip10 x hx)
  have hfpdigit : ∀ c ∈ fp, '0' ≤ c ∧ c ≤ '9' := by
    intro c hc
    rw [hfpMap] at hc
    obtain ⟨x, hx, rfl⟩ := List.mem_map.mp hc
    exact digitChar_range (hfp10 x hx)
  have hnoE : splitAtFirst? (fun c => c = 'e' ∨ c = 'E')
      ((if v < 0 then ['-'] else []) ++ IP ++ (if fp = [] then [] else '.' :: fp)) = none := by
    refine splitAtFirst?_none ?_
    intro c hc
    rcases List.mem_append.mp hc with hc1 | hc2
    · rcases List.mem_append.mp hc1 with hs | hi
      · by_cases hv : v < 0
        · rw [if_pos hv] at hs
          have : c = '-' := by simpa using hs
          subst this
          decide
        · rw [if_neg hv] at hs
          exact absurd hs (by simp)
      · obtain ⟨h1, h2⟩ := hIPdigit c hi
        obtain ⟨he, hE, _, _, _⟩ := digitRange_ne h1 h2
        simp [he, hE]
    · by_cases hfpe : fp = []
      · rw [if_pos hfpe] at hc2
        exact absurd hc2 (by simp)
      · rw [if_neg hfpe] at hc2
        rcases List.mem_cons.mp hc2 with rfl | hcf
        · decide
        · obtain ⟨h1, h2⟩ := hfpdigit c hcf
          obtain ⟨he, hE, _, _, _⟩ := digitRange_ne h1 h2
          simp [he, hE]
  unfold decNewFromString
  rw [show (String.mk ((if v < 0 then ['-'] else []) ++ IP ++
      (if fp = [] then [] else '.' :: fp))).data =
    (if v < 0 then ['-'] else []) ++ IP ++ (if fp = [] then [] else '.' :: fp) from rfl]
  rw [hnoE]
  simp only []
  by_cases hfpe : fp = []
  · subst hfpe
    have hfpV : fpV = [] := by
      have : (some [] : Option (List Nat)) = some fpV := by simpa [parseDigitVals] using hfp
      simpa using this.symm
    subst hfpV
    simp only [eq_self_iff_true, if_true, List.append_nil]
    have hnoDot : splitAtFirst? (fun c => c = '.')
        ((if v < 0 then ['-'] else []) ++ IP) = none := by
      refine splitAtFirst?_none ?_
      intro c hc
      rcases List.mem_append.mp hc with hs | hi
      · by_cases hv : v < 0
        · rw [if_pos hv] at hs
          have : c = '-' := by simpa using hs
          subst this
          decide
        · rw [if_neg hv] at hs
          exact absurd hs (by simp)
      · obtain ⟨h1, h2⟩ := hIPdigit c hi
        obtain ⟨_, _, hdot, _, _⟩ := digitRange_ne h1 h2
        simp [hdot]
    rw [hnoDot]
    simp only []
    have hfold' : (foldDigits ipV : Int) * 10 ^ t = (v.natAbs : Int) := by
      simpa using hfold
    have ht : ((0 : Int) - e).toNat = t := by
      simp only [List.length_nil, Nat.cast_zero] at hlen
      omega
    by_cases hv : v < 0
    · have hshape : (if v < 0 then ['-'] else []) ++ IP = '-' :: IP := by simp [hv]
      rw [hshape, (decParseIntString_digits hip hipne).2]
      simp only []
      rw [if_pos (by constructor <;> norm_num)]
      refine ⟨_, rfl, ?_⟩
      rw [decEqual_iff]
      simp only []
      rw [min_eq_right (le_of_lt hexp), ht]
      have h2 : v * 10 ^ (e - e).toNat = v := by simp
      rw [h2, neg_mul, hfold']
      omega
    · have hshape : (if v < 0 then ['-'] else []) ++ IP = IP := by simp [hv]
      rw [hshape, (decParseIntString_digits hip hipne).1]
      simp only []
      rw [if_pos (by constructor <;> norm_num)]
      refine ⟨_, rfl, ?_⟩
      rw [decEqual_iff]
      simp only []
      rw [min_eq_right (le_of_lt hexp), ht]
      have h2 : v * 10 ^ (e - e).toNat = v := by simp
      rw [h2, hfold']
      omega
  · simp only [if_neg hfpe]
    have hsplitDot : splitAtFirst? (fun c => c = '.')
        ((if v < 0 then ['-'] else []) ++ IP ++ '.' :: fp) =
        some ((if v < 0 then ['-'] else []) ++ IP, fp) := by
      refine splitAtFirst?_first (by decide) _ _ ?_
      intro x hx
      rcases List.mem_append.mp hx with hs | hi
      · by_cases hv : v < 0
        · rw [if_pos hv] at hs
          have : x = '-' := by simpa using hs
          subst this
          decide
        · rw [if_neg hv] at hs
          exact absurd hs (by simp)
      · obtain ⟨h1, h2⟩ := hIPdigit x hi
        obtain ⟨_, _, hdot, _, _⟩ := digitRange_ne h1 h2
        simp [hdot]
    rw [hsplitDot]
    simp only []
    have hpostAny : fp.any (fun c => c = '.') = false := by
      rw [List.any_eq_false]
      intro c hc
      obtain ⟨h1, h2⟩ := hfpdigit c hc
      obtain ⟨_, _, hdot, _, _⟩ := digitRange_ne h1 h2
      simp [hdot]
    rw [hpostAny]
    simp only [Bool.false_eq_true, if_false]
    have happ : parseDigitVals (IP ++ fp) = some (ipV ++ fpV) := parseDigitVals_append hip hfp
    have hlenfp : (fp.length : Int) ≤ -e := by
      have ht0 : (0 : Int) ≤ (t : Int) := by positivity
      omega
    have hrange : -(2 ^ 31 : Int) ≤ 0 - (fp.length : Int) ∧
        0 - (fp.length : Int) ≤ 2 ^ 31 - 1 := by
      constructor
      · omega
      · have : (0 : Int) ≤ (fp.length : Int) := by positivity
        omega
    have hminr : min ((0 : Int) - (fp.length : Int)) e = e := by
      apply min_eq_right
      omega
    have ht : (((0 : Int) - (fp.length : Int)) - e).toNat = t := by omega
    by_cases hv : v < 0
    · have hshape : ((if v < 0 then ['-'] else []) ++ IP) ++ fp = '-' :: (IP ++ fp) := by
        simp [hv]
      rw [hshape, (decParseIntString_digits happ (by simp [hipne])).2]
      simp only []
      rw [if_pos hrange]
      refine ⟨_, rfl, ?_⟩
      rw [decEqual_iff]
      simp only []
      rw [hminr, ht]
      have h2 : v * 10 ^ (e - e).toNat = v := by simp
      rw [h2, neg_mul, hfold]
      omega
    · have hshape : ((if v < 0 then ['-'] else []) ++ IP) ++ fp = IP ++ fp := by
        simp [hv]
      rw [hshape, (decParseIntString_digits happ (by simp [hipne])).1]
      simp only []
      rw [if_pos hrange]
      refine ⟨_, rfl, ?_⟩
      rw [decEqual_iff]
      simp only []
      rw [hminr, ht]
      have h2 : v * 10 ^ (e - e).toNat = v := by simp
      rw [h2, hfold]
      omega

theorem dropTrailingZeroChars_length_le (l : List Char) :
    (dropTrailingZeroChars l).length ≤ l.length := by
  unfold dropTrailingZeroChars
  rw [List.length_reverse]
  calc (l.reverse.dropWhile fun c => c = '0').length
      ≤ l.reverse.length := (List.dropWhile_sublist _).length_le
    _ = l.length := List.length_reverse l

theorem natToChars_chars {n : Nat} {c : Char} (h : c ∈ natToChars n) :
    '0' ≤ c ∧ c ≤ '9' := by
  unfold natToChars at h
  obtain ⟨d, hd, rfl⟩ := List.mem_map.mp h
  exact digitChar_range (natVals_lt_ten d hd)

theorem intToChars_chars {i : Int} {c : Char} (h : c ∈ intToChars i) :
    ('0' ≤ c ∧ c ≤ '9') ∨ c = '-' := by
  unfold intToChars at h
  by_cases hi : i < 0
  · rw [if_pos hi] at h
    rcases List.mem_cons.mp h with rfl | h'
    · exact Or.inr rfl
    · exact Or.inl (natToChars_chars h')
  · rw [if_neg hi] at h
    exact Or.inl (natToChars_chars h)

/-- Parsing a printed decimal with nonnegative exponent: the whole digit
string is the rescaled coefficient, the exponent becomes 0. -/
theorem decNewFromString_decToChars_nonneg {d : GoDecimal} (hexp : 0 ≤ d.exp) :
    decNewFromString (String.mk (decToChars d)) =
      some ⟨d.value * 10 ^ d.exp.toNat, 0⟩ := by
  unfold decToChars
  rw [if_pos hexp]
  unfold decNewFromString
  rw [show (String.mk (intToChars (d.value * 10 ^ d.exp.toNat))).data =
    intToChars (d.value * 10 ^ d.exp.toNat) from rfl]
  have hnoE : splitAtFirst? (fun c => c = 'e' ∨ c = 'E')
      (intToChars (d.value * 10 ^ d.exp.toNat)) = none := by
    refine splitAtFirst?_none ?_
    intro c hc
    rcases intToChars_chars hc with ⟨h1, h2⟩ | rfl
    · obtain ⟨he, hE, _, _, _⟩ := digitRange_ne h1 h2
      simp [he, hE]
    · decide
  rw [hnoE]
  simp only []
  have hnoDot : splitAtFirst? (fun c => c = '.')
      (intToChars (d.value * 10 ^ d.exp.toNat)) = none := by
    refine splitAtFirst?_none ?_
    intro c hc
    rcases intToChars_chars hc with ⟨h1, h2⟩ | rfl
    · obtain ⟨_, _, hdot, _, _⟩ := digitRange_ne h1 h2
      simp [hdot]
    · decide
  rw [hnoDot]
  simp only []
  rw [decParseIntString_intToChars]
  simp only []
  rw [if_pos (by constructor <;> norm_num)]

/-- Shape of `decToChars` for negative exponents when the coefficient has
more digits than `-exp` (the decimal point lands inside the digit string). -/
theorem decToChars_neg_long {d : GoDecimal} (hexp : d.exp < 0)
    (hcase : (-d.exp).toNat < (natToChars d.value.natAbs).length) :
    decToChars d = (if d.value < 0 then ['-'] else []) ++
      (natToChars d.value.natAbs).take
        ((natToChars d.value.natAbs).length - (-d.exp).toNat) ++
      (if dropTrailingZeroChars ((natToChars d.value.natAbs).drop
          ((natToChars d.value.natAbs).length - (-d.exp).toNat)) = [] then []
        else '.' :: dropTrailingZeroChars ((natToChars d.value.natAbs).drop
          ((natToChars d.value.natAbs).length - (-d.exp).toNat))) := by
  unfold decToChars
  rw [if_neg (by omega)]
  simp only []
  rw [if_pos hcase]
  by_cases hfpe : dropTrailingZeroChars ((natToChars d.value.natAbs).drop
      ((natToChars d.value.natAbs).length - (-d.exp).toNat)) = []
  · rw [if_pos hfpe, if_pos hfpe]
    by_cases hv : d.value < 0
    · rw [if_pos hv, if_pos hv]
      simp
    · rw [if_neg hv, if_neg hv]
      simp
  · rw [if_neg hfpe, if_neg hfpe]
    by_cases hv : d.value < 0
    · rw [if_pos hv, if_pos hv]
      simp
    · rw [if_neg hv, if_neg hv]
      simp

/-- Shape of `decToChars` for negative exponents when the coefficient is
short (the integer part is a bare `0`). -/
theorem decToChars_neg_short {d : GoDecimal} (hexp : d.exp < 0)
    (hcase : ¬ (-d.exp).toNat < (natToChars d.value.natAbs).length) :
    decToChars d = (if d.value < 0 then ['-'] else []) ++ ['0'] ++
      (if dropTrailingZeroChars (List.replicate
            ((-d.exp).toNat - (natToChars d.value.natAbs).length) '0' ++
            natToChars d.value.natAbs) = [] then []
        else '.' :: dropTrailingZeroChars (List.replicate
            ((-d.exp).toNat - (natToChars d.value.natAbs).length) '0' ++
            natToChars d.value.natAbs)) := by
  unfold decToChars
  rw [if_neg (by omega)]
  simp only []
  rw [if_neg hcase]
  by_cases hfpe : dropTrailingZeroChars (List.replicate
      ((-d.exp).toNat - (natToChars d.value.natAbs).length) '0' ++
      natToChars d.value.natAbs) = []
  · rw [if_pos hfpe, if_pos hfpe]
    by_cases hv : d.value < 0
    · rw [if_pos hv, if_pos hv]
      simp
    · rw [if_neg hv, if_neg hv]
      simp
  · rw [if_neg hfpe, if_neg hfpe]
    by_cases hv : d.value < 0
    · rw [if_pos hv, if_pos hv]
      simp
    · rw [if_neg hv, if_neg hv]
      simp

/-- shopspring round trip: re-parsing a printed decimal yields an `Equal`
value, for every decimal whose exponent fits in int32. -/
theorem decNewFromString_decToChars (d : GoDecimal)
    (hlo : -(2 ^ 31) ≤ d.exp) (hhi : d.exp ≤ 2 ^ 31 - 1) :
    ∃ d', decNewFromString (String.mk (decToChars d)) = some d' ∧ decEqual d' d = true := by
  by_cases hexp : 0 ≤ d.exp
  · refine ⟨_, decNewFromString_decToChars_nonneg hexp, ?_⟩
    rw [decEqual_iff]
    simp only []
    rw [min_eq_left hexp]
    norm_num
  · push_neg at hexp
    have hparse_a : parseDigitVals (natToChars d.value.natAbs) =
        some (natVals d.value.natAbs) :=
      parseDigitVals_map_digitChar _ natVals_lt_ten
    by_cases hcase : (-d.exp).toNat < (natToChars d.value.natAbs).length
    · -- decimal point inside the digit string
      have hIPraw := List.take_append_drop
        ((natToChars d.value.natAbs).length - (-d.exp).toNat) (natToChars d.value.natAbs)
      obtain ⟨ipV, rawV, hip, hraw, hsum⟩ :=
        parseDigitVals_append_inv (by rw [hIPraw]; exact hparse_a)
      obtain ⟨fpV, hfp, hrawV⟩ := dropTrailing_parse hraw
      have hfle := dropTrailingZeroChars_length_le
        ((natToChars d.value.natAbs).drop
          ((natToChars d.value.natAbs).length - (-d.exp).toNat))
      have hrawlen : ((natToChars d.value.natAbs).drop
          ((natToChars d.value.natAbs).length - (-d.exp).toNat)).length = (-d.exp).toNat := by
        rw [List.length_drop]
        omega
      have hfoldNat : foldDigits (ipV ++ fpV) *
          10 ^ (((natToChars d.value.natAbs).drop
            ((natToChars d.value.natAbs).length - (-d.exp).toNat)).length -
            (dropTrailingZeroChars ((natToChars d.value.natAbs).drop
              ((natToChars d.value.natAbs).length - (-d.exp).toNat))).length) =
          d.value.natAbs := by
        have h2 := foldDigits_natVals d.value.natAbs
        rw [hsum, hrawV, ← List.append_assoc, foldDigits_append,
          foldDigits_replicate_zero, List.length_replicate] at h2
        simpa using h2
      have hfold : (foldDigits (ipV ++ fpV) : Int) *
          10 ^ (((natToChars d.value.natAbs).drop
            ((natToChars d.value.natAbs).length - (-d.exp).toNat)).length -
            (dropTrailingZeroChars ((natToChars d.value.natAbs).drop
              ((natToChars d.value.natAbs).length - (-d.exp).toNat))).length) =
          (d.value.natAbs : Int) := by
        exact_mod_cast hfoldNat
      have hlen : ((dropTrailingZeroChars ((natToChars d.value.natAbs).drop
            ((natToChars d.value.natAbs).length - (-d.exp).toNat))).length : Int) +
          (((((natToChars d.value.natAbs).drop
            ((natToChars d.value.natAbs).length - (-d.exp).toNat)).length -
            (dropTrailingZeroChars ((natToChars d.value.natAbs).drop
              ((natToChars d.value.natAbs).length - (-d.exp).toNat))).length : Nat)) : Int) = -d.exp := by
        omega
      have hipne : (natToChars d.value.natAbs).take
          ((natToChars d.value.natAbs).length - (-d.exp).toNat) ≠ [] := by
        have hl : ((natToChars d.value.natAbs).take
            ((natToChars d.value.natAbs).length - (-d.exp).toNat)).length =
            (natToChars d.value.natAbs).length - (-d.exp).toNat := by
          rw [List.length_take]
          omega
        intro hnil
        rw [hnil] at hl
        simp at hl
        omega
      obtain ⟨d', hpr, heq⟩ :=
        decNewFromString_assembled hexp hlo hip hipne hfp hfold hlen
      refine ⟨d', ?_, heq⟩
      rw [decToChars_neg_long hexp hcase]
      exact hpr
    · -- bare-zero integer part
      have hip : parseDigitVals ['0'] = some [0] := by decide
      have hraw : parseDigitVals (List.replicate
          ((-d.exp).toNat - (natToChars d.value.natAbs).length) '0' ++
          natToChars d.value.natAbs) =
          some (List.replicate
            ((-d.exp).toNat - (natToChars d.value.natAbs).length) 0 ++
            natVals d.value.natAbs) :=
        parseDigitVals_append (parseDigitVals_replicate_zero _) hparse_a
      obtain ⟨fpV, hfp, hrawV⟩ := dropTrailing_parse hraw
      have hfle := dropTrailingZeroChars_length_le
        (List.replicate ((-d.exp).toNat - (natToChars d.value.natAbs).length) '0' ++
          natToChars d.value.natAbs)
      have hrawlen : (List.replicate
          ((-d.exp).toNat - (natToChars d.value.natAbs).length) '0' ++
          natToChars d.value.natAbs).length = (-d.exp).toNat := by
        rw [List.length_append, List.length_replicate]
        omega
      have h2 : foldDigits (List.replicate
          ((-d.exp).toNat - (natToChars d.value.natAbs).length) 0 ++
          natVals d.value.natAbs) = d.value.natAbs := by
        have hnl : (natToChars d.value.natAbs).length = (natVals d.value.natAbs).length := by
          unfold natToChars
          rw [List.length_map]
        rw [hnl, foldDigits_zero_pad, foldDigits_natVals]
      rw [hrawV, foldDigits_append, foldDigits_replicate_zero, List.length_replicate] at h2
      have hfoldNat : foldDigits ([0] ++ fpV) *
          10 ^ ((List.replicate ((-d.exp).toNat - (natToChars d.value.natAbs).length) '0' ++
            natToChars d.value.natAbs).length -
            (dropTrailingZeroChars (List.replicate
              ((-d.exp).toNat - (natToChars d.value.natAbs).length) '0' ++
              natToChars d.value.natAbs)).length) = d.value.natAbs := by
        have hcons : foldDigits ([0] ++ fpV) = foldDigits fpV := by
          rw [show ([0] ++ fpV) = 0 :: fpV from rfl, foldDigits_cons]
          simp
        rw [hcons]
        simpa using h2
      have hfold : (foldDigits ([0] ++ fpV) : Int) *
          10 ^ ((List.replicate ((-d.exp).toNat - (natToChars d.value.natAbs).length) '0' ++
            natToChars d.value.natAbs).length -
            (dropTrailingZeroChars (List.replicate
              ((-d.exp).toNat - (natToChars d.value.natAbs).length) '0' ++
              natToChars d.value.natAbs)).length) = (d.value.natAbs : Int) := by
        exact_mod_cast hfoldNat
      have hlen : ((dropTrailingZeroChars (List.replicate
            ((-d.exp).toNat - (natToChars d.value.natAbs).length) '0' ++
            natToChars d.value.natAbs)).length : Int) +
          ((((List.replicate ((-d.exp).toNat - (natToChars d.value.natAbs).length) '0' ++
            natToChars d.value.natAbs).length -
            (dropTrailingZeroChars (List.replicate
              ((-d.exp).toNat - (natToChars d.value.natAbs).length) '0' ++
              natToChars d.value.natAbs)).length : Nat)) : Int) = -d.exp := by
        omega
      obtain ⟨d', hpr, heq⟩ :=
        decNewFromString_assembled hexp hlo hip (by simp) hfp hfold hlen
      refine ⟨d', ?_, heq⟩
      rw [decToChars_neg_short hexp hcase]
      exact hpr

/-! ## FieldKey and the Field variants -/

/-- `FieldName` is a string; `FieldKey` couples it with a tag namespace. -/
structure FieldKey where
  Name : String
  Tag : String
deriving DecidableEq

/-- Go `FieldKeyTag`: the default tag namespace. -/
def FieldKeyTag : String := "field"

/-- Go `NewDefaultFieldKey`. -/
def NewDefaultFieldKey (name : String) : FieldKey := ⟨name, FieldKeyTag⟩

/-- Go `NewFieldKey`: an empty tag falls back to the default tag. -/
def NewFieldKey (name tag : String) : FieldKey :=
  if tag = "" then ⟨name, FieldKeyTag⟩ else ⟨name, tag⟩

/-- Go `FieldKeyNil`, the reserved no-key sentinel. -/
def FieldKeyNil : FieldKey := NewDefaultFieldKey "nil"

/-- The closed set of concrete Field variants.  A constructor per Go struct:
`StringField`, `TimeField`, `DecimalField`, `IntegerField`, `BoolField`
(with its extra `Set` flag), `EmptyField`. -/
inductive GoField
  | string (valueField : String) (keyField : FieldKey)
  | time (valueField : GoTime) (keyField : FieldKey)
  | decimal (valueField : GoDecimal) (keyField : FieldKey)
  | int (valueField : Int) (keyField : FieldKey)
  | bool (valueField : Bool) (keyField : FieldKey) (setFlag : Bool)
  | empty (keyField : FieldKey)
deriving DecidableEq

/-- The `reflect.Type` tokens returned by the variants' `Type()` methods —
one stable descriptor per variant. -/
inductive FieldType
  | stringT
  | timeT
  | decimalT
  | intT
  | boolT
  | emptyT
deriving DecidableEq

/-- `Field.Type()`. -/
def goType : GoField → FieldType
  | .string _ _ => .stringT
  | .time _ _ => .timeT
  | .decimal _ _ => .decimalT
  | .int _ _ => .intT
  | .bool _ _ _ => .boolT
  | .empty _ => .emptyT

/-- `Field.Key()`. -/
def goKey : GoField → FieldKey
  | .string _ k => k
  | .time _ k => k
  | .decimal _ k => k
  | .int _ k => k
  | .bool _ k _ => k
  | .empty k => k

/-- Go `sameCompareTypes`: both fields have the same `reflect.Type`. -/
def sameCompareTypes (f1 f2 : GoField) : Bool := goType f1 == goType f2

/-- The `safeOp` tokens `EQ`/`LT`/`GT`. -/
inductive SafeOp
  | EQ
  | LT
  | GT
deriving DecidableEq

/-- Go byte-wise string comparison `<` (lexicographic; on the character
lists of the UTF-8 strings, where byte order and codepoint order agree). -/
def goStrLt : List Char → List Char → Bool
  | [], [] => false
  | [], _ :: _ => true
  | _ :: _, [] => false
  | a :: as, b :: bs => if a = b then goStrLt as bs else decide (a < b)

/-- Go `safeOps` applied by `safeCompare`: textual `==`/`<`/`>`. -/
def safeCompare (f1 f2 : String) (o : SafeOp) : Bool :=
  match o with
  | .EQ => f1 == f2
  | .LT => goStrLt f1.data f2.data
  | .GT => goStrLt f2.data f1.data

/-- `Field.ToString()` per variant: identity, RFC 3339, decimal string,
base-10 integer, bool literals, empty string. -/
def goToString : GoField → String
  | .string v _ => v
  | .time v _ => String.mk (formatRFC3339 v)
  | .decimal v _ => String.mk (decToChars v)
  | .int v _ => String.mk (intToChars v)
  | .bool v _ _ => goFormatBool v
  | .empty _ => ""

/-- Go `checkAndDoSafeCompare`: `some false` against nil, textual fallback
(`some`) across different variants, `none` (caller compares natively) for
the same variant. -/
def checkAndDoSafeCompare (f1 : GoField) (f2 : Option GoField) (o : SafeOp) : Option Bool :=
  match f2 with
  | none => some false
  | some f2f =>
    if sameCompareTypes f1 f2f then none
    else some (safeCompare (goToString f1) (goToString f2f) o)

/-- `Field.FromString` per variant.  Text stores the string; Timestamp and
Decimal keep their previous value when the parse fails; Integer always
stores what `strconv.Atoi` returned (0 on malformed input, the clamped
bound on range overflow); Boolean stores `ParseBool`'s result (false on
failure) and raises its `Set` flag; Empty overwrites its key's name with
the input (and a zero tag). -/
def goFromString (s : GoField) (st : String) : GoField :=
  match s with
  | .string _ k => .string st k
  | .time v k =>
    match parseRFC3339 st with
    | none => .time v k
    | some t => .time t k
  | .decimal v k =>
    match decNewFromString st with
    | none => .decimal v k
    | some dv => .decimal dv k
  | .int _ k => .int (goAtoi st).1 k
  | .bool _ k _ => .bool (goParseBool st).1 k true
  | .empty _ => .empty ⟨st, ""⟩

/-- `Field.SetValue` per variant: same-variant arguments copy the native
value (Boolean also raises `Set`); different-variant arguments go through
the textual `ToString`/`FromString` conversion (Text assigns the string
directly); Empty ignores the assignment entirely.  The wildcard same-type
arms are unreachable: `checkAndDoSafeCompare` returns `none` only when the
argument is the same concrete variant. -/
def goSetValue (s : GoField) (in2 : GoField) : GoField :=
  match s with
  | .string _ k =>
    match checkAndDoSafeCompare s (some in2) .EQ with
    | some _ => .string (goToString in2) k
    | none =>
      match in2 with
      | .string v2 _ => .string v2 k
      | _ => s
  | .time _ k =>
    match checkAndDoSafeCompare s (some in2) .EQ with
    | some _ => goFromString s (goToString in2)
    | none =>
      match in2 with
      | .time v2 _ => .time v2 k
      | _ => s
  | .decimal _ k =>
    match checkAndDoSafeCompare s (some in2) .EQ with
    | some _ => goFromString s (goToString in2)
    | none =>
      match in2 with
      | .decimal v2 _ => .decimal v2 k
      | _ => s
  | .int _ k =>
    match checkAndDoSafeCompare s (some in2) .EQ with
    | some _ => goFromString s (goToString in2)
    | none =>
      match in2 with
      | .int v2 _ => .int v2 k
      | _ => s
  | .bool _ k _ =>
    match checkAndDoSafeCompare s (some in2) .EQ with
    | some _ => goFromString s (goToString in2)
    | none =>
      match in2 with
      | .bool v2 _ _ => .bool v2 k true
      | _ => s
  | .empty _ => s

/-- `Field.LessThan` per variant; Boolean and Empty always answer false
(ordering is \"not relevant\" for them in the source). -/
def goLessThan (f1 : GoField) (in2 : Option GoField) : Bool :=
  match f1 with
  | .string v _ =>
    match checkAndDoSafeCompare f1 in2 .LT with
    | some b => b
    | none =>
      match in2 with
      | some (.string v2 _) => goStrLt v.data v2.data
      | _ => false
  | .time v _ =>
    match checkAndDoSafeCompare f1 in2 .LT with
    | some b => b
    | none =>
      match in2 with
      | some (.time v2 _) => timeBefore v v2
      | _ => false
  | .decimal v _ =>
    match checkAndDoSafeCompare f1 in2 .LT with
    | some b => b
    | none =>
      match in2 with
      | some (.decimal v2 _) => decLessThan v v2
      | _ => false
  | .int v _ =>
    match checkAndDoSafeCompare f1 in2 .LT with
    | some b => b
    | none =>
      match in2 with
      | some (.int v2 _) => decide (v < v2)
      | _ => false
  | .bool _ _ _ => false
  | .empty _ => false

/-- `Field.GreaterThan` per variant; Boolean and Empty always answer false. -/
def goGreaterThan (f1 : GoField) (in2 : Option GoField) : Bool :=
  match f1 with
  | .string v _ =>
    match checkAndDoSafeCompare f1 in2 .GT with
    | some b => b
    | none =>
      match in2 with
      | some (.string v2 _) => goStrLt v2.data v.data
      | _ => false
  | .time v _ =>
    match checkAndDoSafeCompare f1 in2 .GT with
    | some b => b
    | none =>
      match in2 with
      | some (.time v2 _) => timeAfter v v2
      | _ => false
  | .decimal v _ =>
    match checkAndDoSafeCompare f1 in2 .GT with
    | some b => b
    | none =>
      match in2 with
      | some (.decimal v2 _) => decGreaterThan v v2
      | _ => false
  | .int v _ =>
    match checkAndDoSafeCompare f1 in2 .GT with
    | some b => b
    | none =>
      match in2 with
      | some (.int v2 _) => decide (v2 < v)
      | _ => false
  | .bool _ _ _ => false
  | .empty _ => false

/-- `Field.Equal` per variant.  Empty compares keys against another Empty,
and answers false against nil or a different variant. -/
def goEqual (f1 : GoField) (in2 : Option GoField) : Bool :=
  match f1 with
  | .string v _ =>
    match checkAndDoSafeCompare f1 in2 .EQ with
    | some b => b
    | none =>
      match in2 with
      | some (.string v2 _) => v == v2
      | _ => false
  | .time v _ =>
    match checkAndDoSafeCompare f1 in2 .EQ with
    | some b => b
    | none =>
      match in2 with
      | some (.time v2 _) => timeEqual v v2
      | _ => false
  | .decimal v _ =>
    match checkAndDoSafeCompare f1 in2 .EQ with
    | some b => b
    | none =>
      match in2 with
      | some (.decimal v2 _) => decEqual v v2
      | _ => false
  | .int v _ =>
    match checkAndDoSafeCompare f1 in2 .EQ with
    | some b => b
    | none =>
      match in2 with
      | some (.int v2 _) => v == v2
      | _ => false
  | .bool v _ _ =>
    match checkAndDoSafeCompare f1 in2 .EQ with
    | some b => b
    | none =>
      match in2 with
      | some (.bool v2 _ _) => v == v2
      | _ => false
  | .empty k =>
    match in2 with
    | none => false
    | some f2 =>
      if sameCompareTypes (.empty k) f2 then
        match f2 with
        | .empty k2 => k == k2
        | _ => false
      else false

/-- `Field.IsEmpty` per variant.  Note the Boolean variant returns its
`Set` flag directly, exactly as the source does. -/
def goIsEmpty : GoField → Bool
  | .string v _ => v == ""
  | .time v _ => timeIsZero v
  | .decimal v _ => decIsZero v
  | .int v _ => v == 0
  | .bool _ _ setFlag => setFlag
  | .empty _ => true

/-- Go `NewBool`: an explicitly-set Boolean field. -/
def newBool (key : FieldKey) (b : Bool) : GoField := .bool b key true

/-- Go `NewBoolEmpty`: a Boolean field that has not been set. -/
def newBoolEmpty (key : FieldKey) : GoField := .bool false key false

/-! ## Conditional gates and conditional fields -/

/-- One (candidacy predicate, guard sequence) rule.  `Enforceable` is
`func(any) bool`; a `Question` is a nullary producer of an `Enforceable`,
so a guard is run as `w()(toSet)`. -/
structure Prerequisite (τ : Type) where
  IsCandidate : τ → Bool
  Gauntlet : List (Unit → τ → Bool)

/-- `conditional.Meets`: walk the prerequisites in order; whenever one's
candidacy holds for `toSet`, run every guard in its gauntlet and reject on
the first failure; approve when the walk finishes. -/
def meets : List (Prerequisite τ) → τ → Bool
  | [], _ => true
  | v :: rest, toSet =>
    if v.IsCandidate toSet then
      if v.Gauntlet.all (fun w => w () toSet) then meets rest toSet else false
    else meets rest toSet

/-- `FieldConditional`: a base Field guarded by a Conditional (the
`conditional` struct holds its prerequisite list). -/
structure FieldConditional where
  field : GoField
  prereqs : List (Prerequisite GoField)

/-- `FieldConditional.SetValue`: the intended value (itself a Field) is
submitted to the gate; only when `Meets` approves is the base field's
`SetValue` run, otherwise nothing happens. -/
def fieldConditionalSetValue (s : FieldConditional) (intendedToSet : GoField) : FieldConditional :=
  if meets s.prereqs intendedToSet then
    { s with field := goSetValue s.field intendedToSet }
  else s

/-! ## Default wrapper -/

/-- The `defaulter` struct: the explicit-set flag and the baseline Field. -/
structure Defaulter where
  ExplicitlySetField : Bool
  Value : GoField

/-- `defaulter.ExplicitlySet`. -/
def explicitlySet (dd : Defaulter) : Bool := dd.ExplicitlySetField

/-- `defaulter.MatchesDefault`: the baseline's `Equal` applied to `f`. -/
def matchesDefault (dd : Defaulter) (f : GoField) : Bool := goEqual dd.Value (some f)

/-- `FieldWDefaultImpl`: a Field paired with its Default tracker. -/
structure FieldWDefaultImpl where
  field : GoField
  defaultPart : Defaulter

/-- `FieldWDefaultImpl.IsDefault`: value matches the baseline AND the
explicit-set flag is off. -/
def isDefault (s : FieldWDefaultImpl) : Bool :=
  matchesDefault s.defaultPart s.field && !(explicitlySet s.defaultPart)

/-! ## The ring-based state machines -/

/-- `StateId` is an opaque string token. -/
abbrev StateId := String

/-- The error values `ProcessInMachine` can return, one constructor per
`errors.New` site plus the distinguished `SameStateNoUpdate` signal. -/
inductive SMErr
  | idNotExist
  | addrNotExist
  | stateRetrieve
  | noValidTransitions
  | nextIdEmpty
  | sameStateNoUpdate
  | nextIdNotExist
  | valueNil
deriving DecidableEq

/-- A plain Transition: target id plus a boolean matcher. -/
structure SMTransition (τ : Type) where
  NextState : StateId
  SimpleMatcher : τ → Bool

/-- A plain State: id, ordered transitions, payload (`any`, so possibly
nil), start and terminal flags. -/
structure SMState (σ τ : Type) where
  Id : StateId
  Matches : List (SMTransition τ)
  StateValue : Option σ
  Start : Bool
  Terminal : Bool

/-- Insert-or-replace into an association list; models writing one key of a
Go map. -/
def mapInsert (k : StateId) (v : α) : List (StateId × α) → List (StateId × α)
  | [] => [(k, v)]
  | (k', v') :: rest => if k' = k then (k, v) :: rest else (k', v') :: mapInsert k v rest

/-- Go map read (`m[k]` with its ok flag). -/
def mapLookup (k : StateId) : List (StateId × α) → Option α
  | [] => none
  | (k', v) :: rest => if k' = k then some v else mapLookup k rest

/-- The `StateMachine` struct: the ring's cells in order, the declared
start id, and the two caches built at construction (id → ring address,
id → payload).  A ring address is a pointer, hence `Option Nat`: `none`
models a nil pointer, `some i` the cell written at populate step `i`. -/
structure StateMachine (σ τ : Type) where
  Start : StateId
  ringStates : List (SMState σ τ)
  IdRingAddressCache : List (StateId × Option Nat)
  ValueCache : List (StateId × Option σ)

/-- The cache-building pass of `PopulateRing`: walk the states in order,
writing each one's ring address and payload into the two caches. -/
def populateCaches (i : Nat) :
    List (SMState σ τ) → List (StateId × Option Nat) → List (StateId × Option σ) →
    List (StateId × Option Nat) × List (StateId × Option σ)
  | [], ic, vc => (ic, vc)
  | v :: rest, ic, vc =>
    populateCaches (i + 1) rest (mapInsert v.Id (some i) ic) (mapInsert v.Id v.StateValue vc)

/-- Go `NewStateMachine`: an empty list yields the zero machine; otherwise
the first state's id is the start and one pass fills ring and caches. -/
def newStateMachine : List (SMState σ τ) → StateMachine σ τ
  | [] => ⟨"", [], [], []⟩
  | s :: rest =>
    let caches := populateCaches 0 (s :: rest) [] []
    ⟨s.Id, s :: rest, caches.1, caches.2⟩

/-- `StateMachine.lookupValueCacheId`: scan the value cache with the
caller's equality function; `""` when nothing matches.  (Go iterates the
map in unspecified order; the model iterates in insertion order.) -/
def lookupValueCacheId (vc : List (StateId × Option σ)) (inVal : Option σ)
    (equals : Option σ → Option σ → Bool) : StateId :=
  match vc with
  | [] => ""
  | (k, v) :: rest => if equals v inVal then k else lookupValueCacheId rest inVal equals

/-- `State.EvaluateTransition`: a terminal state answers its own id;
otherwise the first matching transition's target wins; no match is the
no-valid-transitions error. -/
def evaluateTransition (s : SMState σ τ) (dataToTest : τ) : Except SMErr StateId :=
  if s.Terminal then .ok s.Id
  else
    match s.Matches.find? (fun v => v.SimpleMatcher dataToTest) with
    | some v => .ok v.NextState
    | none => .error .noValidTransitions

/-- `StateMachine.ProcessInMachine`: resolve the current payload to an id,
the id to a ring cell, evaluate that state's transitions, reject an empty
or unchanged target id (the latter with the distinguished
`SameStateNoUpdate`), then resolve the target's payload. -/
def processInMachine (sm : StateMachine σ τ) (inVal : Option σ) (testData : τ)
    (equals : Option σ → Option σ → Bool) : Except SMErr σ :=
  let stateId := lookupValueCacheId sm.ValueCache inVal equals
  match mapLookup stateId sm.IdRingAddressCache with
  | none => .error .idNotExist
  | some none => .error .addrNotExist
  | some (some addr) =>
    match sm.ringStates[addr]? with
    | none => .error .stateRetrieve
    | some currentState =>
      match evaluateTransition currentState testData with
      | .error e => .error e
      | .ok nextId =>
        if nextId = "" then .error .nextIdEmpty
        else if nextId = stateId then .error .sameStateNoUpdate
        else
          match mapLookup nextId sm.ValueCache with
          | none => .error .nextIdNotExist
          | some none => .error .valueNil
          | some (some value) => .ok value

/-- A `ConditionalTransition`: target id plus a Conditional gate (its
prerequisite list). -/
structure ConditionalTransition (τ : Type) where
  NextState : StateId
  prereqs : List (Prerequisite τ)

/-- A `ConditionalState`: id, ordered outcomes, payload, start flag (no
terminal flag exists on this variant). -/
structure ConditionalState (σ τ : Type) where
  Id : StateId
  Outcomes : List (ConditionalTransition τ)
  StateValue : Option σ
  Start : Bool

/-- `ConditionalState.EvaluateTransition`: the first outcome whose gate
`Meets` the test data wins; otherwise no-valid-transitions. -/
def condEvaluateTransition (s : ConditionalState σ τ) (dataToTest : τ) : Except SMErr StateId :=
  match s.Outcomes.find? (fun v => meets v.prereqs dataToTest) with
  | some v => .ok v.NextState
  | none => .error .noValidTransitions

/-- The `ConditionalStateMachine` (a `StateMachine` whose ring cells hold
`ConditionalState`s). -/
structure ConditionalStateMachine (σ τ : Type) where
  Start : StateId
  ringStates : List (ConditionalState σ τ)
  IdRingAddressCache : List (StateId × Option Nat)
  ValueCache : List (StateId × Option σ)

/-- The cache-building pass of `PopulateConditionalRing`. -/
def populateCondCaches (i : Nat) :
    List (ConditionalState σ τ) → List (StateId × Option Nat) → List (StateId × Option σ) →
    List (StateId × Option Nat) × List (StateId × Option σ)
  | [], ic, vc => (ic, vc)
  | v :: rest, ic, vc =>
    populateCondCaches (i + 1) rest (mapInsert v.Id (some i) ic) (mapInsert v.Id v.StateValue vc)

/-- Go `NewConditionalStateMachine`. -/
def newConditionalStateMachine : List (ConditionalState σ τ) → ConditionalStateMachine σ τ
  | [] => ⟨"", [], [], []⟩
  | s :: rest =>
    let caches := populateCondCaches 0 (s :: rest) [] []
    ⟨s.Id, s :: rest, caches.1, caches.2⟩

/-- `ConditionalStateMachine.lookupValueCacheId` (same scan). -/
def condLookupValueCacheId (vc : List (StateId × Option σ)) (inVal : Option σ)
    (equals : Option σ → Option σ → Bool) : StateId :=
  match vc with
  | [] => ""
  | (k, v) :: rest => if equals v inVal then k else condLookupValueCacheId rest inVal equals

/-- `ConditionalStateMachine.ProcessInMachine`: the same pipeline as the
plain machine, except the state evaluation runs Conditional gates and there
is no same-state check — a self-targeting gate returns the current payload
as a success. -/
def condProcessInMachine (sm : ConditionalStateMachine σ τ) (inVal : Option σ) (testData : τ)
    (equals : Option σ → Option σ → Bool) : Except SMErr σ :=
  let stateId := condLookupValueCacheId sm.ValueCache inVal equals
  match mapLookup stateId sm.IdRingAddressCache with
  | none => .error .idNotExist
  | some none => .error .addrNotExist
  | some (some addr) =>
    match sm.ringStates[addr]? with
    | none => .error .stateRetrieve
    | some currentState =>
      match condEvaluateTransition currentState testData with
      | .error e => .error e
      | .ok nextId =>
        if nextId = "" then .error .nextIdEmpty
        else
          match mapLookup nextId sm.ValueCache with
          | none => .error .nextIdNotExist
          | some none => .error .valueNil
          | some (some value) => .ok value

/-- Go `BasicEquals`: interface equality of two `StateValue`s; in the model
decidable equality of the optional payloads. -/
def basicEquals [DecidableEq σ] (s1 s2 : Option σ) : Bool := s1 == s2

/-! ## Claims -/

/-- C2: the claim says `BoolField.IsEmpty` is the negation of the `Set`
flag; the source returns the flag itself, so a never-assigned Boolean
built by `NewBoolEmpty` reports `IsEmpty() = false` where the claim (and
the documented intent of the flag) requires `true`. -/
theorem C2_boolField_isEmpty_is_set_flag :
    (∀ (v : Bool) (k : FieldKey) (st : Bool), goIsEmpty (.bool v k st) = st) ∧
      (∀ k, goIsEmpty (newBoolEmpty k) = false) :=
  ⟨fun _ _ _ => rfl, fun _ => rfl⟩

/-- C10: `EmptyField.SetValue` is a no-op — the key and all other state are
unchanged, and `IsEmpty()` remains true. -/
theorem C10_empty_setValue_noop :
    ∀ (k : FieldKey) (v : GoField),
      goSetValue (.empty k) v = .empty k ∧ goIsEmpty (goSetValue (.empty k) v) = true :=
  fun _ _ => ⟨rfl, rfl⟩

/-- C8: `IsDefault()` is true iff the baseline's `Equal` holds of the
wrapped field and the explicitly-set flag is false; a raised flag forces
`IsDefault()` to false even when the value matches the baseline. -/
theorem C8_isDefault_iff :
    ∀ s : FieldWDefaultImpl,
      (isDefault s = true ↔
        goEqual s.defaultPart.Value (some s.field) = true ∧
          s.defaultPart.ExplicitlySetField = false) ∧
      (s.defaultPart.ExplicitlySetField = true → isDefault s = false) := by
  intro s
  constructor
  · unfold isDefault matchesDefault explicitlySet
    rw [Bool.and_eq_true, Bool.not_eq_true']
  · intro h
    unfold isDefault explicitlySet
    rw [h]
    simp

theorem C8_isDefault_iff_witness :
    ((FieldWDefaultImpl.mk (.bool true FieldKeyNil true)
        ⟨true, .bool true FieldKeyNil true⟩).defaultPart.ExplicitlySetField = true) ∧
      isDefault (FieldWDefaultImpl.mk (.bool true FieldKeyNil true)
        ⟨true, .bool true FieldKeyNil true⟩) = false :=
  ⟨rfl, (C8_isDefault_iff _).2 rfl⟩

/-- C6: the conditional field forwards `SetValue` to the base field exactly
when the gate approves the intended value; a rejected assignment leaves the
whole record unchanged and produces no error. -/
theorem C6_conditional_setValue :
    ∀ (s : FieldConditional) (intended : GoField),
      (meets s.prereqs intended = true →
        fieldConditionalSetValue s intended = { s with field := goSetValue s.field intended }) ∧
      (meets s.prereqs intended = false → fieldConditionalSetValue s intended = s) := by
  intro s intended
  constructor
  · intro h
    unfold fieldConditionalSetValue
    rw [if_pos h]
  · intro h
    unfold fieldConditionalSetValue
    rw [if_neg (by simp [h])]

theorem C6_conditional_setValue_witness :
    (meets ([] : List (Prerequisite GoField)) (GoField.string "x" FieldKeyNil) = true ∧
      fieldConditionalSetValue ⟨GoField.string "a" FieldKeyNil, []⟩ (GoField.string "x" FieldKeyNil) =
        { field := goSetValue (GoField.string "a" FieldKeyNil) (GoField.string "x" FieldKeyNil),
          prereqs := ([] : List (Prerequisite GoField)) }) ∧
    (meets [Prerequisite.mk (fun _ => true) [fun _ _ => false]] (GoField.string "x" FieldKeyNil) = false ∧
      fieldConditionalSetValue
          ⟨GoField.string "a" FieldKeyNil, [Prerequisite.mk (fun _ => true) [fun _ _ => false]]⟩
          (GoField.string "x" FieldKeyNil) =
        ⟨GoField.string "a" FieldKeyNil, [Prerequisite.mk (fun _ => true) [fun _ _ => false]]⟩) :=
  ⟨⟨rfl, (C6_conditional_setValue ⟨GoField.string "a" FieldKeyNil, []⟩ (GoField.string "x" FieldKeyNil)).1 rfl⟩,
   ⟨rfl, (C6_conditional_setValue
      ⟨GoField.string "a" FieldKeyNil, [Prerequisite.mk (fun _ => true) [fun _ _ => false]]⟩
      (GoField.string "x" FieldKeyNil)).2 rfl⟩⟩

/-- C5: `Meets` rejects exactly when some prerequisite whose candidacy
accepts the value has a guard answering false on it; in particular a gate
with no candidate prerequisite approves. -/
theorem C5_meets_iff :
    ∀ (prereqs : List (Prerequisite τ)) (x : τ),
      (meets prereqs x = false ↔
        ∃ p ∈ prereqs, p.IsCandidate x = true ∧ ∃ q ∈ p.Gauntlet, q () x = false) ∧
      ((∀ p ∈ prereqs, p.IsCandidate x = false) → meets prereqs x = true) := by
  intro prereqs x
  constructor
  · induction prereqs with
    | nil => simp [meets]
    | cons p rest ih =>
      rw [meets]
      by_cases hc : p.IsCandidate x
      · rw [if_pos hc]
        by_cases hg : p.Gauntlet.all (fun w => w () x)
        · rw [if_pos hg, ih]
          constructor
          · rintro ⟨q, hq, hqc, hfail⟩
            exact ⟨q, by simp [hq], hqc, hfail⟩
          · rintro ⟨q, hq, hqc, hfail⟩
            rcases List.mem_cons.mp hq with rfl | hq'
            · exfalso
              obtain ⟨g, hg1, hg2⟩ := hfail
              have := List.all_eq_true.mp hg g hg1
              simp only [this] at hg2
              exact absurd hg2 (by simp)
            · exact ⟨q, hq', hqc, hfail⟩
        · rw [if_neg hg]
          constructor
          · intro _
            rw [List.all_eq_true] at hg
            push_neg at hg
            obtain ⟨g, hgm, hgf⟩ := hg
            exact ⟨p, by simp, hc, g, hgm, by simpa using hgf⟩
          · intro _
            rfl
      · rw [if_neg hc, ih]
        constructor
        · rintro ⟨q, hq, hqc, hf⟩
          exact ⟨q, by simp [hq], hqc, hf⟩
        · rintro ⟨q, hq, hqc, hf⟩
          rcases List.mem_cons.mp hq with rfl | hq'
          · exact absurd hqc (by simpa using hc)
          · exact ⟨q, hq', hqc, hf⟩
  · intro hnone
    induction prereqs with
    | nil => rfl
    | cons p rest ih =>
      rw [meets, if_neg (by simp [hnone p (by simp)])]
      exact ih (fun q hq => hnone q (by simp [hq]))

theorem C5_meets_iff_witness :
    ((meets [Prerequisite.mk (fun n : Nat => n == 0) [fun _ _ => false]] 5 = false ↔
        ∃ p ∈ [Prerequisite.mk (fun n : Nat => n == 0) [fun _ _ => false]],
          p.IsCandidate 5 = true ∧ ∃ q ∈ p.Gauntlet, q () 5 = false) ∧
      ((∀ p ∈ [Prerequisite.mk (fun n : Nat => n == 0) [fun _ _ => false]],
          p.IsCandidate 5 = false) → meets [Prerequisite.mk (fun n : Nat => n == 0)
            [fun _ _ => false]] 5 = true)) ∧
    meets [Prerequisite.mk (fun n : Nat => n == 0) [fun _ _ => false]] 5 = true :=
  ⟨C5_meets_iff _ 5,
   (C5_meets_iff [Prerequisite.mk (fun n : Nat => n == 0) [fun _ _ => false]] 5).2
     (by intro p hp; rw [List.mem_singleton.mp hp]; rfl)⟩

theorem goParseBool_err {s : String} (h : (goParseBool s).2 = false) :
    goParseBool s = (false, false) := by
  unfold goParseBool at h ⊢
  split_ifs at h ⊢ <;> simp_all

/-- C3 (amended): a failed `FromString` surfaces no error; the Timestamp
and Decimal cells keep their previous value; the Integer cell stores what
`strconv.Atoi` returned (0 on malformed input, the clamped bound on range
overflow); the Boolean cell is reset to false with its `Set` flag raised. -/
theorem C3_fromString_failure :
    ∀ (k : FieldKey) (s : String),
      (∀ t : GoTime, parseRFC3339 s = none → goFromString (.time t k) s = .time t k) ∧
      (∀ dv : GoDecimal, decNewFromString s = none →
        goFromString (.decimal dv k) s = .decimal dv k) ∧
      (∀ i : Int, goFromString (.int i k) s = .int (goAtoi s).1 k) ∧
      ((goAtoi s).2 = .malformed → (goAtoi s).1 = 0) ∧
      (∀ (b st : Bool), (goParseBool s).2 = false →
        goFromString (.bool b k st) s = .bool false k true) := by
  intro k s
  refine ⟨?_, ?_, fun i => rfl, ?_, ?_⟩
  · intro t h
    unfold goFromString
    rw [h]
  · intro dv h
    unfold goFromString
    rw [h]
  · exact goParseIntSized_malformed_val
  · intro b st h
    unfold goFromString
    rw [goParseBool_err h]

/-- C3 (counterexample): a Timestamp cell holding a non-zero instant keeps
that instant — not the zero timestamp the claim requires — when
`FromString` is fed an unparsable string. -/
theorem C3_counterexample :
    goFromString (.time ⟨2026, 1, 2, 3, 4, 5, 0⟩ FieldKeyNil) "not-a-time" =
        .time ⟨2026, 1, 2, 3, 4, 5, 0⟩ FieldKeyNil ∧
      (GoField.time ⟨2026, 1, 2, 3, 4, 5, 0⟩ FieldKeyNil) ≠ .time zeroTime FieldKeyNil := by
  constructor
  · decide
  · decide

theorem C3_fromString_failure_witness :
    parseRFC3339 "xyz" = none ∧
    goFromString (.time zeroTime FieldKeyNil) "xyz" = .time zeroTime FieldKeyNil ∧
    decNewFromString "xyz" = none ∧
    goFromString (.decimal zeroDecimal FieldKeyNil) "xyz" = .decimal zeroDecimal FieldKeyNil ∧
    (goAtoi "xyz").2 = .malformed ∧ (goAtoi "xyz").1 = 0 ∧
    (goParseBool "xyz").2 = false ∧
    goFromString (.bool true FieldKeyNil true) "xyz" = .bool false FieldKeyNil true :=
  ⟨by decide,
   (C3_fromString_failure FieldKeyNil "xyz").1 zeroTime (by decide),
   by decide,
   (C3_fromString_failure FieldKeyNil "xyz").2.1 zeroDecimal (by decide),
   by decide,
   (C3_fromString_failure FieldKeyNil "xyz").2.2.2.1 (by decide),
   by decide,
   (C3_fromString_failure FieldKeyNil "xyz").2.2.2.2 true true (by decide)⟩

theorem checkSafe_of_diff {f1 f2 : GoField} (h : sameCompareTypes f1 f2 = false) (o : SafeOp) :
    checkAndDoSafeCompare f1 (some f2) o =
      some (safeCompare (goToString f1) (goToString f2) o) := by
  unfold checkAndDoSafeCompare
  simp only []
  rw [if_neg (by simp [h])]

/-- C4 (amended): across different variants the Text, Timestamp, Decimal
and Integer receivers answer all three comparisons textually on the
`ToString` forms; the Boolean receiver answers `Equal` textually but is
never less or greater; the Empty receiver answers false to everything.
Every comparison is total (a boolean, never a failure). -/
theorem C4_cross_variant_compare :
    ∀ f1 f2 : GoField, sameCompareTypes f1 f2 = false →
      ((goType f1 = .stringT ∨ goType f1 = .timeT ∨ goType f1 = .decimalT ∨ goType f1 = .intT) →
        goLessThan f1 (some f2) = safeCompare (goToString f1) (goToString f2) .LT ∧
        goGreaterThan f1 (some f2) = safeCompare (goToString f1) (goToString f2) .GT ∧
        goEqual f1 (some f2) = safeCompare (goToString f1) (goToString f2) .EQ) ∧
      (goType f1 = .boolT →
        goEqual f1 (some f2) = safeCompare (goToString f1) (goToString f2) .EQ ∧
        goLessThan f1 (some f2) = false ∧ goGreaterThan f1 (some f2) = false) ∧
      (goType f1 = .emptyT →
        goEqual f1 (some f2) = false ∧
        goLessThan f1 (some f2) = false ∧ goGreaterThan f1 (some f2) = false) := by
  intro f1 f2 hdiff
  refine ⟨?_, ?_, ?_⟩
  · intro htype
    cases f1 with
    | string v k =>
      refine ⟨?_, ?_, ?_⟩ <;>
        simp only [goLessThan, goGreaterThan, goEqual, checkSafe_of_diff hdiff]
    | time v k =>
      refine ⟨?_, ?_, ?_⟩ <;>
        simp only [goLessThan, goGreaterThan, goEqual, checkSafe_of_diff hdiff]
    | decimal v k =>
      refine ⟨?_, ?_, ?_⟩ <;>
        simp only [goLessThan, goGreaterThan, goEqual, checkSafe_of_diff hdiff]
    | int v k =>
      refine ⟨?_, ?_, ?_⟩ <;>
        simp only [goLessThan, goGreaterThan, goEqual, checkSafe_of_diff hdiff]
    | bool v k st => simp [goType] at htype
    | empty k => simp [goType] at htype
  · intro htype
    cases f1 with
    | bool v k st =>
      refine ⟨?_, rfl, rfl⟩
      simp only [goEqual, checkSafe_of_diff hdiff]
    | string v k => simp [goType] at htype
    | time v k => simp [goType] at htype
    | decimal v k => simp [goType] at htype
    | int v k => simp [goType] at htype
    | empty k => simp [goType] at htype
  · intro htype
    cases f1 with
    | empty k =>
      refine ⟨?_, rfl, rfl⟩
      simp only [goEqual]
      rw [if_neg (by simp [hdiff])]
    | string v k => simp [goType] at htype
    | time v k => simp [goType] at htype
    | decimal v k => simp [goType] at htype
    | int v k => simp [goType] at htype
    | bool v k st => simp [goType] at htype

/-- C4 (counterexample): a Boolean cell compared with a Text cell of a
different variant ignores the textual ordering — `LessThan` answers false
although the `ToString` forms compare strictly below textually, so the
claim's "each of LessThan, GreaterThan, Equal returns the textual
comparison" fails at this input. -/
theorem C4_counterexample :
    sameCompareTypes (.bool true FieldKeyNil true) (.string "z" FieldKeyNil) = false ∧
    goLessThan (.bool true FieldKeyNil true) (some (.string "z" FieldKeyNil)) = false ∧
    safeCompare (goToString (.bool true FieldKeyNil true))
      (goToString (.string "z" FieldKeyNil)) .LT = true := by
  refine ⟨by decide, rfl, by decide⟩

theorem C4_cross_variant_compare_witness :
    sameCompareTypes (.int 7 FieldKeyNil) (.string "5" FieldKeyNil) = false ∧
    (goLessThan (.int 7 FieldKeyNil) (some (.string "5" FieldKeyNil)) =
        safeCompare (goToString (.int 7 FieldKeyNil)) (goToString (.string "5" FieldKeyNil)) .LT ∧
      goGreaterThan (.int 7 FieldKeyNil) (some (.string "5" FieldKeyNil)) =
        safeCompare (goToString (.int 7 FieldKeyNil)) (goToString (.string "5" FieldKeyNil)) .GT ∧
      goEqual (.int 7 FieldKeyNil) (some (.string "5" FieldKeyNil)) =
        safeCompare (goToString (.int 7 FieldKeyNil)) (goToString (.string "5" FieldKeyNil)) .EQ) :=
  ⟨by decide,
   (C4_cross_variant_compare (.int 7 FieldKeyNil) (.string "5" FieldKeyNil) (by decide)).1
     (by decide)⟩

/-- The spec's three-state example machine: A→B and B→C on "go", C terminal. -/
def exMachine : StateMachine String String :=
  newStateMachine
    [⟨"A", [⟨"B", fun s => s == "go"⟩], some "A-val", true, false⟩,
     ⟨"B", [⟨"C", fun s => s == "go"⟩], some "B-val", false, false⟩,
     ⟨"C", [], some "C-val", false, true⟩]

/-- C1 (amended): when the current value resolves to a terminal state C,
the plain machine's `ProcessInMachine` returns the distinguished
`SameStateNoUpdate` signal (with a nil value) — the terminal self-loop is
reported through that signal, not as a successful result carrying C's
payload. -/
theorem C1_terminal_self_loop :
    ∀ (sm : StateMachine σ τ) (inVal : Option σ) (testData : τ)
      (equals : Option σ → Option σ → Bool) (c : SMState σ τ) (addr : Nat),
      mapLookup (lookupValueCacheId sm.ValueCache inVal equals) sm.IdRingAddressCache =
        some (some addr) →
      sm.ringStates[addr]? = some c →
      c.Terminal = true →
      c.Id = lookupValueCacheId sm.ValueCache inVal equals →
      c.Id ≠ "" →
      processInMachine sm inVal testData equals = .error .sameStateNoUpdate := by
  intro sm inVal testData equals c addr h1 h2 hterm hid hne
  unfold processInMachine
  simp only []
  rw [h1]
  simp only []
  rw [h2]
  simp only []
  rw [show evaluateTransition c testData = .ok c.Id by
    unfold evaluateTransition
    rw [if_pos hterm]]
  simp only []
  rw [if_neg hne, if_pos hid]

/-- C1 (counterexample): at the spec's own example — current value C's
payload, test input "go" — the machine returns the `SameStateNoUpdate`
error and no successful payload at all, contradicting the claim that the
call succeeds with C's payload. -/
theorem C1_counterexample :
    processInMachine exMachine (some "C-val") "go" basicEquals =
        .error .sameStateNoUpdate ∧
      ∀ v : String, processInMachine exMachine (some "C-val") "go" basicEquals ≠ .ok v := by
  have h0 : processInMachine exMachine (some "C-val") "go" basicEquals =
      .error .sameStateNoUpdate := rfl
  refine ⟨h0, fun v h => ?_⟩
  rw [h0] at h
  exact absurd h (by simp)

theorem C1_terminal_self_loop_witness :
    mapLookup (lookupValueCacheId exMachine.ValueCache (some "C-val") basicEquals)
        exMachine.IdRingAddressCache = some (some 2) ∧
      exMachine.ringStates[2]? = some ⟨"C", [], some "C-val", false, true⟩ ∧
      (⟨"C", [], some "C-val", false, true⟩ : SMState String String).Terminal = true ∧
      (⟨"C", [], some "C-val", false, true⟩ : SMState String String).Id =
        lookupValueCacheId exMachine.ValueCache (some "C-val") basicEquals ∧
      (⟨"C", [], some "C-val", false, true⟩ : SMState String String).Id ≠ "" ∧
      processInMachine exMachine (some "C-val") "go" basicEquals =
        .error .sameStateNoUpdate :=
  ⟨rfl, rfl, rfl, rfl, by decide,
   C1_terminal_self_loop exMachine (some "C-val") "go" basicEquals
     ⟨"C", [], some "C-val", false, true⟩ 2 rfl rfl rfl rfl (by decide)⟩

theorem condEvaluateTransition_err {s : ConditionalState σ τ} {testData : τ} {e : SMErr}
    (h : condEvaluateTransition s testData = .error e) : e = .noValidTransitions := by
  unfold condEvaluateTransition at h
  cases hf : s.Outcomes.find? (fun v => meets v.prereqs testData) with
  | none =>
    rw [hf] at h
    simpa using h.symm
  | some v =>
    rw [hf] at h
    exact absurd h (by simp)

/-- A single-state conditional machine whose only gate (vacuously met)
targets the state itself. -/
def exCondMachine : ConditionalStateMachine String String :=
  newConditionalStateMachine [⟨"id1", [⟨"id1", []⟩], some "v1", true⟩]

/-- C9: the conditional machine never returns the plain machine's
distinguished `SameStateNoUpdate` signal; when the first gate that meets
the test data targets the current state itself, the current state's own
cached payload is returned as a successful result. -/
theorem C9_no_same_state_signal :
    (∀ (sm : ConditionalStateMachine σ τ) (inVal : Option σ) (testData : τ)
        (equals : Option σ → Option σ → Bool),
      condProcessInMachine sm inVal testData equals ≠ .error .sameStateNoUpdate) ∧
    (∀ (sm : ConditionalStateMachine σ τ) (inVal : Option σ) (testData : τ)
        (equals : Option σ → Option σ → Bool) (c : ConditionalState σ τ) (addr : Nat) (v : σ),
      mapLookup (condLookupValueCacheId sm.ValueCache inVal equals) sm.IdRingAddressCache =
        some (some addr) →
      sm.ringStates[addr]? = some c →
      condEvaluateTransition c testData =
        .ok (condLookupValueCacheId sm.ValueCache inVal equals) →
      condLookupValueCacheId sm.ValueCache inVal equals ≠ "" →
      mapLookup (condLookupValueCacheId sm.ValueCache inVal equals) sm.ValueCache =
        some (some v) →
      condProcessInMachine sm inVal testData equals = .ok v) := by
  constructor
  · intro sm inVal testData equals h
    unfold condProcessInMachine at h
    simp only [] at h
    split at h
    · simp at h
    · simp at h
    · split at h
      · simp at h
      · split at h
        · rename_i e heq
          have := condEvaluateTransition_err heq
          subst this
          simp at h
        · split at h
          · simp at h
          · split at h
            · simp at h
            · simp at h
            · simp at h
  · intro sm inVal testData equals c addr v h1 h2 h3 h4 h5
    unfold condProcessInMachine
    simp only []
    rw [h1]
    simp only []
    rw [h2]
    simp only []
    rw [h3]
    simp only []
    rw [if_neg h4, h5]

theorem C9_no_same_state_signal_witness :
    mapLookup (condLookupValueCacheId exCondMachine.ValueCache (some "v1") basicEquals)
        exCondMachine.IdRingAddressCache = some (some 0) ∧
    exCondMachine.ringStates[0]? = some ⟨"id1", [⟨"id1", []⟩], some "v1", true⟩ ∧
    condEvaluateTransition
        (⟨"id1", [⟨"id1", []⟩], some "v1", true⟩ : ConditionalState String String) "x" =
      .ok (condLookupValueCacheId exCondMachine.ValueCache (some "v1") basicEquals) ∧
    condLookupValueCacheId exCondMachine.ValueCache (some "v1") basicEquals ≠ "" ∧
    mapLookup (condLookupValueCacheId exCondMachine.ValueCache (some "v1") basicEquals)
        exCondMachine.ValueCache = some (some "v1") ∧
    condProcessInMachine exCondMachine (some "v1") "x" basicEquals = .ok "v1" :=
  ⟨rfl, rfl, rfl, by decide, rfl,
   (C9_no_same_state_signal).2 exCondMachine (some "v1") "x" basicEquals
     ⟨"id1", [⟨"id1", []⟩], some "v1", true⟩ 0 "v1" rfl rfl rfl (by decide) rfl⟩

theorem checkSafe_of_same {f1 f2 : GoField} (h : sameCompareTypes f1 f2 = true) (o : SafeOp) :
    checkAndDoSafeCompare f1 (some f2) o = none := by
  unfold checkAndDoSafeCompare
  simp only []
  rw [if_pos h]

theorem goEqual_refl (f : GoField) : goEqual f (some f) = true := by
  cases f <;>
    simp [goEqual, checkAndDoSafeCompare, sameCompareTypes, goType, timeEqual,
      decEqual, decCmp]

/-- C7 (amended): `FromString ∘ ToString` restores an equal value for the
Text variant, the Integer variant over the 64-bit range, the Decimal
variant over int32 exponents, and the Boolean variant; for the Timestamp
variant it does so exactly on whole-second in-range instants — the RFC 3339
format prints no fractional seconds, so a sub-second component is lost. -/
theorem C7_roundTrip :
    ∀ k : FieldKey,
      (∀ v : String,
        goEqual (goFromString (.string v k) (goToString (.string v k)))
          (some (.string v k)) = true) ∧
      (∀ i : Int, -(2 ^ 63 : Int) ≤ i → i < 2 ^ 63 →
        goEqual (goFromString (.int i k) (goToString (.int i k)))
          (some (.int i k)) = true) ∧
      (∀ dv : GoDecimal, -(2 ^ 31 : Int) ≤ dv.exp → dv.exp ≤ 2 ^ 31 - 1 →
        goEqual (goFromString (.decimal dv k) (goToString (.decimal dv k)))
          (some (.decimal dv k)) = true) ∧
      (∀ (b st : Bool),
        goEqual (goFromString (.bool b k st) (goToString (.bool b k st)))
          (some (.bool b k st)) = true) ∧
      (∀ t : GoTime, goTimeInRange t → t.nanosecond = 0 →
        goEqual (goFromString (.time t k) (goToString (.time t k)))
          (some (.time t k)) = true) := by
  intro k
  refine ⟨?_, ?_, ?_, ?_, ?_⟩
  · intro v
    exact goEqual_refl (.string v k)
  · intro i hlo hhi
    have hatoi : goAtoi (goToString (.int i k)) = (i, .ok) := by
      unfold goToString goAtoi
      exact goParseIntSized_intToChars (by norm_num) (by exact_mod_cast hlo)
        (by exact_mod_cast hhi)
    have hres : goFromString (.int i k) (goToString (.int i k)) = .int i k := by
      unfold goFromString
      rw [hatoi]
    rw [hres]
    exact goEqual_refl (.int i k)
  · intro dv h1 h2
    obtain ⟨d', hd1, hd2⟩ := decNewFromString_decToChars dv h1 h2
    have hres : goFromString (.decimal dv k) (goToString (.decimal dv k)) = .decimal d' k := by
      unfold goFromString goToString
      rw [hd1]
    rw [hres]
    simp [goEqual, checkAndDoSafeCompare, sameCompareTypes, goType, hd2]
  · intro b st
    have hres : goFromString (.bool b k st) (goToString (.bool b k st)) = .bool b k true := by
      cases b <;> rfl
    rw [hres]
    simp [goEqual, checkAndDoSafeCompare, sameCompareTypes, goType]
  · intro t hin hns
    have hres : goFromString (.time t k) (goToString (.time t k)) = .time t k := by
      unfold goFromString goToString
      rw [parseRFC3339_format hin hns]
    rw [hres]
    exact goEqual_refl (.time t k)

/-- C7 (counterexample): a Timestamp holding half a second past midnight
does not round-trip: `Format(RFC3339)` drops the 500000000ns component, so
the re-parsed value is not `Equal` to the original. -/
theorem C7_counterexample :
    goEqual (goFromString (.time ⟨2026, 1, 1, 0, 0, 0, 500000000⟩ FieldKeyNil)
        (goToString (.time ⟨2026, 1, 1, 0, 0, 0, 500000000⟩ FieldKeyNil)))
      (some (.time ⟨2026, 1, 1, 0, 0, 0, 500000000⟩ FieldKeyNil)) = false := by
  decide

theorem C7_roundTrip_witness :
    (-(2 ^ 63 : Int) ≤ 42 ∧ (42 : Int) < 2 ^ 63 ∧
      goEqual (goFromString (.int 42 FieldKeyNil) (goToString (.int 42 FieldKeyNil)))
        (some (.int 42 FieldKeyNil)) = true) ∧
    (-(2 ^ 31 : Int) ≤ (GoDecimal.mk 1234 (-2)).exp ∧
      (GoDecimal.mk 1234 (-2)).exp ≤ 2 ^ 31 - 1 ∧
      goEqual (goFromString (.decimal ⟨1234, -2⟩ FieldKeyNil)
          (goToString (.decimal ⟨1234, -2⟩ FieldKeyNil)))
        (some (.decimal ⟨1234, -2⟩ FieldKeyNil)) = true) ∧
    (goTimeInRange ⟨2026, 10, 11, 12, 30, 45, 0⟩ ∧
      (⟨2026, 10, 11, 12, 30, 45, 0⟩ : GoTime).nanosecond = 0 ∧
      goEqual (goFromString (.time ⟨2026, 10, 11, 12, 30, 45, 0⟩ FieldKeyNil)
          (goToString (.time ⟨2026, 10, 11, 12, 30, 45, 0⟩ FieldKeyNil)))
        (some (.time ⟨2026, 10, 11, 12, 30, 45, 0⟩ FieldKeyNil)) = true) :=
  ⟨⟨by decide, by decide,
    (C7_roundTrip FieldKeyNil).2.1 42 (by decide) (by decide)⟩,
   ⟨by decide, by decide,
    (C7_roundTrip FieldKeyNil).2.2.1 ⟨1234, -2⟩ (by decide) (by decide)⟩,
   ⟨by decide, by decide,
    (C7_roundTrip FieldKeyNil).2.2.2.2 ⟨2026, 10, 11, 12, 30, 45, 0⟩ (by decide) (by decide)⟩⟩

end Fielder
